import Mathlib

/-!
Verification development for the spanner_graphs package: a shallow embedding
of the graph-entity model, schema manager, conversion engine, database
adapters, instance cache and node-expansion query synthesis, together with
theorems that settle the specification claims C1 to C10.
-/

set_option maxRecDepth 4096

/- ## JSON values

Python passes parsed JSON around as dicts, lists, strings, numbers,
booleans and None.  Objects are modelled as association lists (Python
dicts preserve insertion order; key lookup returns the first binding). -/

inductive Json where
  | null
  | bool (b : Bool)
  | num (n : Int)
  | str (s : String)
  | arr (elems : List Json)
  | obj (fields : List (String × Json))

/-- First binding for a key in an association list, like Python dict access. -/
def lookupPairs (fs : List (String × Json)) (key : String) : Option Json :=
  match fs with
  | [] => none
  | (k, v) :: rest => if k = key then some v else lookupPairs rest key

/-- Python `d[k]` / `k in d` on a JSON value; non-dicts hold no keys. -/
def Json.lookupKey : Json → String → Option Json
  | .obj fs, k => lookupPairs fs k
  | _, _ => none

/-- Python `isinstance(v, str)`. -/
def Json.isStr : Json → Bool
  | .str _ => true
  | _ => false

/-- Python `isinstance(v, list)`. -/
def Json.isArr : Json → Bool
  | .arr _ => true
  | _ => false

/-- Python `isinstance(v, dict)`. -/
def Json.isObj : Json → Bool
  | .obj _ => true
  | _ => false

/-- A type check applied to an optional dict entry; a missing key fails. -/
def optIs (p : Json → Bool) : Option Json → Bool
  | some v => p v
  | none => false

def Json.strD (j : Option Json) (dflt : String) : String :=
  match j with
  | some (.str s) => s
  | _ => dflt

def Json.strListD (j : Option Json) : List String :=
  match j with
  | some (.arr xs) => xs.filterMap fun x => match x with | .str s => some s | _ => none
  | _ => []

def Json.objD (j : Option Json) : List (String × Json) :=
  match j with
  | some (.obj fs) => fs
  | _ => []

/- ## Lexicographic string comparison

Python sorted() compares strings lexicographically by code point.  The
Mathlib order on String does not reduce in the kernel, so an executable
comparison on the underlying character lists is defined here and proved
total, transitive and antisymmetric. -/

def lexLe : List Char → List Char → Bool
  | [], _ => true
  | _ :: _, [] => false
  | a :: as, b :: bs => if a = b then lexLe as bs else decide (a < b)

def strLe (a b : String) : Prop := lexLe a.data b.data = true

instance : DecidableRel strLe := fun a b => by unfold strLe; infer_instance

theorem lexLe_total (as bs : List Char) : lexLe as bs = true ∨ lexLe bs as = true := by
  induction as generalizing bs with
  | nil => left; rfl
  | cons a as ih =>
    cases bs with
    | nil => right; rfl
    | cons b bs =>
      by_cases hab : a = b
      · subst hab
        rcases ih bs with h | h
        · left; simpa [lexLe] using h
        · right; simpa [lexLe] using h
      · rcases lt_or_gt_of_ne hab with h | h
        · left; simp [lexLe, hab, h]
        · right; simp [lexLe, Ne.symm hab, h]

theorem lexLe_antisymm (as bs : List Char) (h₁ : lexLe as bs = true)
    (h₂ : lexLe bs as = true) : as = bs := by
  induction as generalizing bs with
  | nil =>
    cases bs with
    | nil => rfl
    | cons b bs => simp [lexLe] at h₂
  | cons a as ih =>
    cases bs with
    | nil => simp [lexLe] at h₁
    | cons b bs =>
      by_cases hab : a = b
      · subst hab
        simp only [lexLe, if_pos rfl] at h₁ h₂
        rw [ih bs h₁ h₂]
      · simp only [lexLe, if_neg hab, if_neg (Ne.symm hab), decide_eq_true_eq] at h₁ h₂
        exact absurd h₂ (not_lt_of_lt h₁)

theorem lexLe_trans (as bs cs : List Char) (h₁ : lexLe as bs = true)
    (h₂ : lexLe bs cs = true) : lexLe as cs = true := by
  induction as generalizing bs cs with
  | nil => rfl
  | cons a as ih =>
    cases bs with
    | nil => simp [lexLe] at h₁
    | cons b bs =>
      cases cs with
      | nil => simp [lexLe] at h₂
      | cons c cs =>
        by_cases hab : a = b <;> by_cases hbc : b = c
        · subst hab; subst hbc
          simp only [lexLe, if_pos rfl] at h₁ h₂ ⊢
          exact ih bs cs h₁ h₂
        · subst hab
          simp only [lexLe, if_neg hbc] at h₂ ⊢
          exact h₂
        · subst hbc
          simp only [lexLe, if_neg hab] at h₁ ⊢
          exact h₁
        · simp only [lexLe, if_neg hab, if_neg hbc, decide_eq_true_eq] at h₁ h₂
          by_cases hac : a = c
          · subst hac; exact absurd (h₁.trans h₂) (lt_irrefl a)
          · simp [lexLe, if_neg hac, h₁.trans h₂]

instance : IsTotal String strLe := ⟨fun a b => lexLe_total a.data b.data⟩

instance : IsTrans String strLe := ⟨fun a b c => lexLe_trans a.data b.data c.data⟩

instance : IsAntisymm String strLe :=
  ⟨fun a b h₁ h₂ => String.ext (lexLe_antisymm a.data b.data h₁ h₂)⟩

/-- Python sorted() on a list of strings. -/
def pySorted (ls : List String) : List String := ls.insertionSort strLe

theorem pySorted_perm (l : List String) : List.Perm (pySorted l) l :=
  List.perm_insertionSort _ l

theorem pySorted_eq_of_perm (l₁ l₂ : List String) (h : List.Perm l₁ l₂) :
    pySorted l₁ = pySorted l₂ :=
  List.eq_of_perm_of_sorted
    (((List.perm_insertionSort _ l₁).trans h).trans (List.perm_insertionSort _ l₂).symm)
    (List.sorted_insertionSort _ l₁) (List.sorted_insertionSort _ l₂)

theorem pySorted_eq_iff_perm (l₁ l₂ : List String) :
    pySorted l₁ = pySorted l₂ ↔ List.Perm l₁ l₂ := by
  constructor
  · intro h
    exact (pySorted_perm l₁).symm.trans (h ▸ pySorted_perm l₂)
  · exact pySorted_eq_of_perm l₁ l₂

/- ## graph_entities.py : Node and Edge -/

/-- Node from graph_entities.py.  key_property_names starts empty in
__init__ and is filled in by the conversion engine. -/
structure Node where
  identifier : String
  labels : List String
  key_property_names : List String
  properties : List (String × Json)
  intermediate : Bool

structure Edge where
  identifier : String
  source : String
  destination : String
  labels : List String
  properties : List (String × Json)

def squoteChar : Char := Char.ofNat 39

/-- The note text of make_intermediate; the apostrophe is assembled from
its code point. -/
def intermediateNote : String :=
  "This node represents a referenced entity that wasn" ++ String.mk [squoteChar] ++
    "t returned in the query results."

/-- Node.make_intermediate from graph_entities.py. -/
def Node.make_intermediate (identifier : String) : Node :=
  { identifier := identifier
    labels := ["Intermediate"]
    key_property_names := []
    properties := [("note", Json.str intermediateNote)]
    intermediate := true }

/-- Node.from_json from graph_entities.py: only invoked on validated input,
where the defaults for missing or mistyped entries never fire. -/
def Node.from_json (data : Json) : Node :=
  { identifier := Json.strD (data.lookupKey "identifier") ""
    labels := Json.strListD (data.lookupKey "labels")
    key_property_names := []
    properties := Json.objD (data.lookupKey "properties")
    intermediate := false }

/-- Edge.from_json from graph_entities.py. -/
def Edge.from_json (data : Json) : Edge :=
  { identifier := Json.strD (data.lookupKey "identifier") ""
    source := Json.strD (data.lookupKey "source_node_identifier") ""
    destination := Json.strD (data.lookupKey "destination_node_identifier") ""
    labels := Json.strListD (data.lookupKey "labels")
    properties := Json.objD (data.lookupKey "properties") }

/-- Python `all(isinstance(label, str) for label in node_data["labels"])`. -/
def labelsAllStrings (j : Option Json) : Bool :=
  match j with
  | some (.arr xs) => xs.all Json.isStr
  | _ => false

/-- Node.is_valid_node_json from graph_entities.py: all required keys
present, with the required types, and every label a string. -/
def Node.is_valid_node_json (node_data : Json) : Bool :=
  (["identifier", "labels", "properties"].all fun k => (node_data.lookupKey k).isSome) &&
  optIs Json.isStr (node_data.lookupKey "identifier") &&
  optIs Json.isArr (node_data.lookupKey "labels") &&
  optIs Json.isObj (node_data.lookupKey "properties") &&
  labelsAllStrings (node_data.lookupKey "labels")

/-- Edge.is_valid_edge_json from graph_entities.py. -/
def Edge.is_valid_edge_json (edge_data : Json) : Bool :=
  (["identifier", "source_node_identifier", "destination_node_identifier",
    "labels", "properties"].all fun k => (edge_data.lookupKey k).isSome) &&
  optIs Json.isStr (edge_data.lookupKey "identifier") &&
  optIs Json.isStr (edge_data.lookupKey "source_node_identifier") &&
  optIs Json.isStr (edge_data.lookupKey "destination_node_identifier") &&
  optIs Json.isArr (edge_data.lookupKey "labels") &&
  optIs Json.isObj (edge_data.lookupKey "properties") &&
  labelsAllStrings (edge_data.lookupKey "labels")

/- ## schema_manager.py -/

structure PropertyDefinition where
  propertyDeclarationName : String
  valueExpressionSql : String

structure NodeTable where
  labelNames : List String
  keyColumns : List String
  propertyDefinitions : List PropertyDefinition
  dynamicLabelExpr : String

structure Schema where
  nodeTables : List NodeTable

/-- SchemaManager._determine_dynamic_node: the loop body reassigns
self.dynamic_node on every iteration, so the final value comes from the
last node table alone (false when there are no node tables). -/
def determine_dynamic_node (tables : List NodeTable) : Bool :=
  tables.foldl (fun _ t => t.dynamicLabelExpr.length != 0) false

structure SchemaManager where
  nodeTables : List NodeTable
  dynamic_node : Bool

/-- SchemaManager.__init__ with schema_json or None (None degrades to an
empty schema dict, hence no node tables). -/
def SchemaManager.ofSchema (schema_json : Option Schema) : SchemaManager :=
  let tables := match schema_json with
    | some s => s.nodeTables
    | none => []
  { nodeTables := tables, dynamic_node := determine_dynamic_node tables }

/-- The for-loop of SchemaManager.get_key_property_names over node tables. -/
def keyPropsLoop (dyn : Bool) (props : List (String × Json))
    (sorted_node_labels : List String) : List NodeTable → List String
  | [] => []
  | t :: rest =>
    if dyn && t.labelNames.all (fun l => sorted_node_labels.contains l) then
      t.keyColumns
    else if t.labelNames.length == sorted_node_labels.length &&
        pySorted t.labelNames == sorted_node_labels &&
        t.keyColumns.all (fun k => (lookupPairs props k).isSome) then
      t.keyColumns
    else
      keyPropsLoop dyn props sorted_node_labels rest

/-- SchemaManager.get_key_property_names from schema_manager.py. -/
def SchemaManager.get_key_property_names (sm : SchemaManager) (node : Node) : List String :=
  if node.properties.length == 0 then []
  else if node.labels.length == 0 then []
  else keyPropsLoop sm.dynamic_node node.properties (pySorted node.labels) sm.nodeTables

/-- resolveKeyProperties as the specification words it (for the
non-dynamic case): the first node table whose label set, compared
order-independently as an unordered collection, equals the node label set
and whose key columns all occur among the node property keys. -/
def resolveKeyPropertiesSpec (tables : List NodeTable) (node : Node) : List String :=
  if node.properties.length = 0 ∨ node.labels = [] then []
  else
    match tables.find? (fun t =>
        t.labelNames.isPerm node.labels &&
        t.keyColumns.all (fun k => (lookupPairs node.properties k).isSome)) with
    | some t => t.keyColumns
    | none => []

/- ## conversion.py : get_nodes_edges -/

/-- SpannerFieldInfo from database.py. -/
structure SpannerFieldInfo where
  name : String
  typename : String

/-- Python `data[column_name]`: the docstring of get_nodes_edges requires
one entry per field name, so the missing-key default never fires on
in-contract input. -/
def lookupColumn (data : List (String × List Json)) (name : String) : List Json :=
  match data with
  | [] => []
  | (k, v) :: rest => if k = name then v else lookupColumn rest name

/-- The items_to_process flattening in get_nodes_edges: a list value
contributes its elements, a dict value itself, a string value its parse
result (dropped on parse failure), anything else nothing.  `parse` stands
for the external json.loads. -/
def itemsToProcess (parse : String → Option Json) (value : Json) : List Json :=
  match value with
  | .arr elems => elems
  | .obj fs => [Json.obj fs]
  | .str s =>
    match parse s with
    | some j => [j]
    | none => []
  | _ => []

def concatMap (f : α → List β) : List α → List β
  | [] => []
  | x :: xs => f x ++ concatMap f xs

/-- One column of the double loop of get_nodes_edges: only typenames JSON
and ARRAY are processed; every row value is flattened. -/
def columnItems (parse : String → Option Json) (data : List (String × List Json))
    (field : SpannerFieldInfo) : List Json :=
  if field.typename = "JSON" ∨ field.typename = "ARRAY" then
    concatMap (itemsToProcess parse) (lookupColumn data field.name)
  else []

/-- The stream of candidate items get_nodes_edges inspects, in order. -/
def allItems (parse : String → Option Json) (data : List (String × List Json))
    (fields : List SpannerFieldInfo) : List Json :=
  concatMap (columnItems parse data) fields

/-- Python `item["kind"] == k` guarded by `isinstance(item, dict)` and
`"kind" in item`. -/
def kindIs (item : Json) (k : String) : Bool :=
  match item.lookupKey "kind" with
  | some (.str s) => s = k
  | _ => false

def isNodeItem (item : Json) : Bool :=
  kindIs item "node" && Node.is_valid_node_json item

def isEdgeItem (item : Json) : Bool :=
  kindIs item "edge" && Edge.is_valid_edge_json item

/-- The kept node for a valid candidate: Node.from_json with
key_property_names resolved through the schema manager. -/
def buildNode (sm : SchemaManager) (item : Json) : Node :=
  let node := Node.from_json item
  { node with key_property_names := sm.get_key_property_names node }

/-- The mutable state of the conversion loop: kept nodes and edges plus
the identifier sets (modelled as duplicate-free lists in insertion
order). -/
structure ConvState where
  nodes : List Node
  edges : List Edge
  node_identifiers : List String
  edge_identifiers : List String

def initConvState : ConvState := ⟨[], [], [], []⟩

/-- The body of the item loop in get_nodes_edges. -/
def processItem (sm : SchemaManager) (st : ConvState) (item : Json) : ConvState :=
  if isNodeItem item then
    let node := Node.from_json item
    if st.node_identifiers.contains node.identifier then st
    else
      { st with
        nodes := st.nodes ++ [buildNode sm item]
        node_identifiers := st.node_identifiers ++ [node.identifier] }
  else if isEdgeItem item then
    let edge := Edge.from_json item
    if st.edge_identifiers.contains edge.identifier then st
    else
      { st with
        edges := st.edges ++ [edge]
        edge_identifiers := st.edge_identifiers ++ [edge.identifier] }
  else st

/-- Collect one endpoint identifier when it is neither a known node
identifier nor already collected (Python uses a set; membership is what
matters, insertion order is kept here). -/
def addMissing (node_ids acc : List String) (x : String) : List String :=
  if !node_ids.contains x && !acc.contains x then acc ++ [x] else acc

/-- One edge of the missing-identifier collection loop: its source, then
its destination. -/
def missingStep (node_ids : List String) (acc : List String) (e : Edge) : List String :=
  addMissing node_ids (addMissing node_ids acc e.source) e.destination

def missingIdentifiers (edges : List Edge) (node_ids : List String) : List String :=
  edges.foldl (missingStep node_ids) []

/-- get_nodes_edges from conversion.py. -/
def get_nodes_edges (parse : String → Option Json) (data : List (String × List Json))
    (fields : List SpannerFieldInfo) (schema_json : Option Schema) :
    List Node × List Edge :=
  let sm := SchemaManager.ofSchema schema_json
  let st := (allItems parse data fields).foldl (processItem sm) initConvState
  let missing := missingIdentifiers st.edges st.node_identifiers
  (st.nodes ++ missing.map Node.make_intermediate, st.edges)

/- ## Characterizations of the conversion loop -/

/-- The nodes the loop keeps, given the identifiers already seen. -/
def keptNodes (sm : SchemaManager) (seen : List String) : List Json → List Node
  | [] => []
  | it :: rest =>
    if isNodeItem it then
      if seen.contains (Node.from_json it).identifier then keptNodes sm seen rest
      else buildNode sm it :: keptNodes sm (seen ++ [(Node.from_json it).identifier]) rest
    else keptNodes sm seen rest

/-- The edges the loop keeps, given the edge identifiers already seen. -/
def keptEdges (seen : List String) : List Json → List Edge
  | [] => []
  | it :: rest =>
    if isEdgeItem it then
      if seen.contains (Edge.from_json it).identifier then keptEdges seen rest
      else Edge.from_json it :: keptEdges (seen ++ [(Edge.from_json it).identifier]) rest
    else keptEdges seen rest

theorem buildNode_identifier (sm : SchemaManager) (it : Json) :
    (buildNode sm it).identifier = (Node.from_json it).identifier := rfl

theorem buildNode_intermediate (sm : SchemaManager) (it : Json) :
    (buildNode sm it).intermediate = false := rfl

theorem make_intermediate_identifier (i : String) :
    (Node.make_intermediate i).identifier = i := rfl

theorem not_edgeItem_of_nodeItem (it : Json) (h : isNodeItem it = true) :
    isEdgeItem it = false := by
  simp only [isNodeItem, Bool.and_eq_true] at h
  obtain ⟨hk, -⟩ := h
  unfold kindIs at hk
  unfold isEdgeItem kindIs
  cases hlk : it.lookupKey "kind" with
  | none => simp [hlk] at hk
  | some v =>
    cases v with
    | str s =>
      rw [hlk] at hk
      simp only [decide_eq_true_eq] at hk
      subst hk
      simp
    | null => simp [hlk] at hk
    | bool b => simp [hlk] at hk
    | num n => simp [hlk] at hk
    | arr xs => simp [hlk] at hk
    | obj fs => simp [hlk] at hk

theorem foldl_processItem_eq (sm : SchemaManager) :
    ∀ (items : List Json) (st : ConvState),
    items.foldl (processItem sm) st =
      { nodes := st.nodes ++ keptNodes sm st.node_identifiers items
        edges := st.edges ++ keptEdges st.edge_identifiers items
        node_identifiers :=
          st.node_identifiers ++ (keptNodes sm st.node_identifiers items).map (·.identifier)
        edge_identifiers :=
          st.edge_identifiers ++ (keptEdges st.edge_identifiers items).map (·.identifier) } := by
  intro items
  induction items with
  | nil => intro st; simp [keptNodes, keptEdges]
  | cons it rest ih =>
    intro st
    by_cases hn : isNodeItem it = true
    · have he := not_edgeItem_of_nodeItem it hn
      by_cases hseen : (Node.from_json it).identifier ∈ st.node_identifiers
      · simp [List.foldl_cons, processItem, hn, he, hseen, ih, keptNodes, keptEdges]
      · simp [List.foldl_cons, processItem, hn, he, hseen, ih, keptNodes, keptEdges,
          List.append_assoc, buildNode_identifier]
    · by_cases he : isEdgeItem it = true
      · by_cases hseen : (Edge.from_json it).identifier ∈ st.edge_identifiers
        · simp [List.foldl_cons, processItem, hn, he, hseen, ih, keptNodes, keptEdges]
        · simp [List.foldl_cons, processItem, hn, he, hseen, ih, keptNodes, keptEdges,
            List.append_assoc]
      · simp [List.foldl_cons, processItem, hn, he, ih, keptNodes, keptEdges]

theorem keptNodes_ids_nodup_append (sm : SchemaManager) :
    ∀ (items : List Json) (seen : List String), seen.Nodup →
      (seen ++ (keptNodes sm seen items).map (·.identifier)).Nodup := by
  intro items
  induction items with
  | nil => intro seen h; simpa [keptNodes] using h
  | cons it rest ih =>
    intro seen hseen
    by_cases hn : isNodeItem it = true
    · by_cases hmem : (Node.from_json it).identifier ∈ seen
      · simpa [keptNodes, hn, hmem] using ih seen hseen
      · have h₂ : (seen ++ [(Node.from_json it).identifier]).Nodup := by
          simp [List.nodup_append, hseen, hmem]
        have := ih (seen ++ [(Node.from_json it).identifier]) h₂
        rw [List.append_assoc] at this
        simpa [keptNodes, hn, hmem, buildNode_identifier] using this
    · simpa [keptNodes, hn] using ih seen hseen

theorem keptNodes_ids_nodup (sm : SchemaManager) (items : List Json) :
    ((keptNodes sm [] items).map (·.identifier)).Nodup := by
  simpa using keptNodes_ids_nodup_append sm items [] (by simp)

theorem keptEdges_ids_nodup_append :
    ∀ (items : List Json) (seen : List String), seen.Nodup →
      (seen ++ (keptEdges seen items).map (·.identifier)).Nodup := by
  intro items
  induction items with
  | nil => intro seen h; simpa [keptEdges] using h
  | cons it rest ih =>
    intro seen hseen
    by_cases he : isEdgeItem it = true
    · by_cases hmem : (Edge.from_json it).identifier ∈ seen
      · simpa [keptEdges, he, hmem] using ih seen hseen
      · have h₂ : (seen ++ [(Edge.from_json it).identifier]).Nodup := by
          simp [List.nodup_append, hseen, hmem]
        have := ih (seen ++ [(Edge.from_json it).identifier]) h₂
        rw [List.append_assoc] at this
        simpa [keptEdges, he, hmem] using this
    · simpa [keptEdges, he] using ih seen hseen

theorem keptEdges_ids_nodup (items : List Json) :
    ((keptEdges [] items).map (·.identifier)).Nodup := by
  simpa using keptEdges_ids_nodup_append items [] (by simp)

theorem keptNodes_first (sm : SchemaManager) :
    ∀ (items : List Json) (seen : List String) (n : Node), n ∈ keptNodes sm seen items →
      n.identifier ∉ seen ∧
      ∃ it, items.find? (fun x => isNodeItem x &&
          ((Node.from_json x).identifier == n.identifier)) = some it ∧
        n = buildNode sm it := by
  intro items
  induction items with
  | nil => intro seen n h; simp [keptNodes] at h
  | cons it₀ rest ih =>
    intro seen n h
    by_cases hn : isNodeItem it₀ = true
    · by_cases hmem : (Node.from_json it₀).identifier ∈ seen
      · rw [keptNodes, if_pos hn, if_pos (by simpa using hmem)] at h
        obtain ⟨hns, it, hfind, hbuild⟩ := ih seen n h
        refine ⟨hns, it, ?_, hbuild⟩
        rw [List.find?_cons_of_neg, hfind]
        simp only [Bool.and_eq_true, beq_iff_eq, not_and, hn, forall_const]
        intro heq
        exact absurd (heq ▸ hmem) hns
      · rw [keptNodes, if_pos hn, if_neg (by simpa using hmem)] at h
        rcases List.mem_cons.mp h with hhd | htl
        · subst hhd
          refine ⟨by simpa [buildNode_identifier] using hmem, it₀, ?_, rfl⟩
          rw [List.find?_cons_of_pos]
          simp [hn, buildNode_identifier]
        · obtain ⟨hns, it, hfind, hbuild⟩ :=
            ih (seen ++ [(Node.from_json it₀).identifier]) n htl
          have hne : (Node.from_json it₀).identifier ≠ n.identifier := by
            intro heq
            exact hns (by simp [heq])
          have hnseen : n.identifier ∉ seen := fun hc => hns (by simp [hc])
          refine ⟨hnseen, it, ?_, hbuild⟩
          rw [List.find?_cons_of_neg, hfind]
          simp [hn, hne]
    · rw [keptNodes, if_neg hn] at h
      obtain ⟨hns, it, hfind, hbuild⟩ := ih seen n h
      refine ⟨hns, it, ?_, hbuild⟩
      rw [List.find?_cons_of_neg, hfind]
      simp [hn]

theorem keptEdges_first :
    ∀ (items : List Json) (seen : List String) (e : Edge), e ∈ keptEdges seen items →
      e.identifier ∉ seen ∧
      ∃ it, items.find? (fun x => isEdgeItem x &&
          ((Edge.from_json x).identifier == e.identifier)) = some it ∧
        e = Edge.from_json it := by
  intro items
  induction items with
  | nil => intro seen e h; simp [keptEdges] at h
  | cons it₀ rest ih =>
    intro seen e h
    by_cases he : isEdgeItem it₀ = true
    · by_cases hmem : (Edge.from_json it₀).identifier ∈ seen
      · rw [keptEdges, if_pos he, if_pos (by simpa using hmem)] at h
        obtain ⟨hns, it, hfind, hbuild⟩ := ih seen e h
        refine ⟨hns, it, ?_, hbuild⟩
        rw [List.find?_cons_of_neg, hfind]
        simp only [Bool.and_eq_true, beq_iff_eq, not_and, he, forall_const]
        intro heq
        exact absurd (heq ▸ hmem) hns
      · rw [keptEdges, if_pos he, if_neg (by simpa using hmem)] at h
        rcases List.mem_cons.mp h with hhd | htl
        · subst hhd
          refine ⟨by simpa using hmem, it₀, ?_, rfl⟩
          rw [List.find?_cons_of_pos]
          simp [he]
        · obtain ⟨hns, it, hfind, hbuild⟩ :=
            ih (seen ++ [(Edge.from_json it₀).identifier]) e htl
          have hne : (Edge.from_json it₀).identifier ≠ e.identifier := by
            intro heq
            exact hns (by simp [heq])
          have hnseen : e.identifier ∉ seen := fun hc => hns (by simp [hc])
          refine ⟨hnseen, it, ?_, hbuild⟩
          rw [List.find?_cons_of_neg, hfind]
          simp [he, hne]
    · rw [keptEdges, if_neg he] at h
      obtain ⟨hns, it, hfind, hbuild⟩ := ih seen e h
      refine ⟨hns, it, ?_, hbuild⟩
      rw [List.find?_cons_of_neg, hfind]
      simp [he]

theorem mem_keptNodes_ids (sm : SchemaManager) :
    ∀ (items : List Json) (seen : List String) (i : String),
      i ∈ (keptNodes sm seen items).map (·.identifier) ↔
        i ∉ seen ∧ ∃ it ∈ items, isNodeItem it = true ∧ (Node.from_json it).identifier = i := by
  intro items
  induction items with
  | nil => intro seen i; simp [keptNodes]
  | cons it₀ rest ih =>
    intro seen i
    by_cases hn : isNodeItem it₀ = true
    · by_cases hmem : (Node.from_json it₀).identifier ∈ seen
      · rw [keptNodes, if_pos hn, if_pos (by simpa using hmem)]
        rw [ih seen i]
        constructor
        · rintro ⟨hns, it, hit, hni, hid⟩
          exact ⟨hns, it, List.mem_cons_of_mem _ hit, hni, hid⟩
        · rintro ⟨hns, it, hit, hni, hid⟩
          rcases List.mem_cons.mp hit with rfl | hit
          · exact absurd (hid ▸ hmem) hns
          · exact ⟨hns, it, hit, hni, hid⟩
      · rw [keptNodes, if_pos hn, if_neg (by simpa using hmem)]
        simp only [List.map_cons, List.mem_cons, buildNode_identifier]
        rw [ih (seen ++ [(Node.from_json it₀).identifier]) i]
        constructor
        · rintro (rfl | ⟨hns, it, hit, hni, hid⟩)
          · exact ⟨hmem, it₀, Or.inl rfl, hn, rfl⟩
          · refine ⟨fun hc => hns (by simp [hc]), it, Or.inr hit, hni, hid⟩
        · rintro ⟨hns, it, hit, hni, hid⟩
          rcases hit with rfl | hit
          · exact Or.inl hid.symm
          · by_cases hcase : i = (Node.from_json it₀).identifier
            · exact Or.inl hcase
            · refine Or.inr ⟨?_, it, hit, hni, hid⟩
              simp [hns, Ne.symm, hcase]
    · rw [keptNodes, if_neg hn]
      rw [ih seen i]
      constructor
      · rintro ⟨hns, it, hit, hni, hid⟩
        exact ⟨hns, it, List.mem_cons_of_mem _ hit, hni, hid⟩
      · rintro ⟨hns, it, hit, hni, hid⟩
        rcases List.mem_cons.mp hit with rfl | hit
        · exact absurd hni (by simpa using hn)
        · exact ⟨hns, it, hit, hni, hid⟩


theorem mem_addMissing (node_ids acc : List String) (x i : String) :
    i ∈ addMissing node_ids acc x ↔ i ∈ acc ∨ (i ∉ node_ids ∧ i = x) := by
  unfold addMissing
  split_ifs with h
  · simp only [Bool.and_eq_true, Bool.not_eq_true'] at h
    obtain ⟨h₁, h₂⟩ := h
    have hx : x ∉ node_ids := by simpa using h₁
    simp only [List.mem_append, List.mem_singleton]
    constructor
    · rintro (hi | rfl)
      · exact Or.inl hi
      · exact Or.inr ⟨hx, rfl⟩
    · rintro (hi | ⟨-, rfl⟩)
      · exact Or.inl hi
      · exact Or.inr rfl
  · constructor
    · exact Or.inl
    · rintro (hi | ⟨hni, rfl⟩)
      · exact hi
      · have : ¬(i ∉ node_ids ∧ i ∉ acc) := by
          intro ⟨ha, hb⟩
          exact h (by simp [ha, hb])
        rcases not_and_or.mp this with hc | hc
        · exact absurd hni hc
        · simpa using hc

theorem nodup_addMissing (node_ids acc : List String) (x : String) (h : acc.Nodup) :
    (addMissing node_ids acc x).Nodup := by
  unfold addMissing
  split_ifs with hc
  · simp only [Bool.and_eq_true, Bool.not_eq_true'] at hc
    simp [List.nodup_append, h, by simpa using hc.2]
  · exact h

theorem mem_missingStep (node_ids acc : List String) (e : Edge) (i : String) :
    i ∈ missingStep node_ids acc e ↔
      i ∈ acc ∨ (i ∉ node_ids ∧ (i = e.source ∨ i = e.destination)) := by
  unfold missingStep
  rw [mem_addMissing, mem_addMissing]
  tauto

theorem nodup_missingStep (node_ids acc : List String) (e : Edge) (h : acc.Nodup) :
    (missingStep node_ids acc e).Nodup :=
  nodup_addMissing _ _ _ (nodup_addMissing _ _ _ h)

theorem mem_foldl_missingStep (node_ids : List String) :
    ∀ (edges : List Edge) (acc : List String) (i : String),
      i ∈ edges.foldl (missingStep node_ids) acc ↔
        i ∈ acc ∨ (i ∉ node_ids ∧ ∃ e ∈ edges, i = e.source ∨ i = e.destination) := by
  intro edges
  induction edges with
  | nil => intro acc i; simp
  | cons e rest ih =>
    intro acc i
    rw [List.foldl_cons, ih, mem_missingStep]
    constructor
    · rintro ((h | ⟨hni, hse⟩) | ⟨hni, e₂, he₂, hse⟩)
      · exact Or.inl h
      · exact Or.inr ⟨hni, e, List.mem_cons_self _ _, hse⟩
      · exact Or.inr ⟨hni, e₂, List.mem_cons_of_mem _ he₂, hse⟩
    · rintro (h | ⟨hni, e₂, he₂, hse⟩)
      · exact Or.inl (Or.inl h)
      · rcases List.mem_cons.mp he₂ with rfl | he₂
        · exact Or.inl (Or.inr ⟨hni, hse⟩)
        · exact Or.inr ⟨hni, e₂, he₂, hse⟩

theorem mem_missingIdentifiers (edges : List Edge) (node_ids : List String) (i : String) :
    i ∈ missingIdentifiers edges node_ids ↔
      i ∉ node_ids ∧ ∃ e ∈ edges, i = e.source ∨ i = e.destination := by
  unfold missingIdentifiers
  rw [mem_foldl_missingStep]
  simp

theorem nodup_missingIdentifiers (edges : List Edge) (node_ids : List String) :
    (missingIdentifiers edges node_ids).Nodup := by
  unfold missingIdentifiers
  suffices h : ∀ (es : List Edge) (acc : List String), acc.Nodup →
      (es.foldl (missingStep node_ids) acc).Nodup by
    exact h edges [] (by simp)
  intro es
  induction es with
  | nil => intro acc h; simpa using h
  | cons e rest ih =>
    intro acc h
    exact ih _ (nodup_missingStep _ _ _ h)

/-- Filtering a list of intermediate nodes built from duplicate-free
identifiers down to one identifier yields exactly that placeholder. -/
theorem filter_map_make_intermediate :
    ∀ (l : List String), l.Nodup → ∀ i ∈ l,
      (l.map Node.make_intermediate).filter (fun n => n.identifier == i) =
        [Node.make_intermediate i] := by
  intro l
  induction l with
  | nil => intro _ i hi; simp at hi
  | cons j rest ih =>
    intro hnd i hi
    obtain ⟨hj, hrest⟩ := List.nodup_cons.mp hnd
    rcases List.mem_cons.mp hi with rfl | hi
    · have hnone : (rest.map Node.make_intermediate).filter
          (fun n => n.identifier == i) = [] := by
        rw [List.filter_eq_nil_iff]
        intro n hn
        obtain ⟨k, hk, rfl⟩ := List.mem_map.mp hn
        simp only [make_intermediate_identifier, beq_iff_eq]
        intro hcontra
        exact hj (hcontra ▸ hk)
      simp [List.filter_cons, make_intermediate_identifier, hnone]
    · have hji : j ≠ i := fun hc => hj (hc ▸ hi)
      simp [List.filter_cons, make_intermediate_identifier, hji, ih hrest i hi]

theorem map_map_intermediate_ids (l : List String) :
    (l.map Node.make_intermediate).map (·.identifier) = l := by
  induction l with
  | nil => rfl
  | cons x xs ih => simp only [List.map_cons, make_intermediate_identifier, ih]

theorem keptNodes_intermediate_false (sm : SchemaManager) (items : List Json)
    (n : Node) (h : n ∈ keptNodes sm [] items) : n.intermediate = false := by
  obtain ⟨-, it, -, hb⟩ := keptNodes_first sm items [] n h
  rw [hb]
  rfl

theorem get_nodes_edges_eq (parse : String → Option Json)
    (data : List (String × List Json)) (fields : List SpannerFieldInfo)
    (schema_json : Option Schema) :
    get_nodes_edges parse data fields schema_json =
      (keptNodes (SchemaManager.ofSchema schema_json) [] (allItems parse data fields) ++
        (missingIdentifiers (keptEdges [] (allItems parse data fields))
          ((keptNodes (SchemaManager.ofSchema schema_json) []
            (allItems parse data fields)).map (·.identifier))).map Node.make_intermediate,
       keptEdges [] (allItems parse data fields)) := by
  unfold get_nodes_edges
  simp only [foldl_processItem_eq]
  rfl

theorem filter_nonintermediate (sm : SchemaManager) (items : List Json)
    (miss : List String) :
    ((keptNodes sm [] items ++ miss.map Node.make_intermediate).filter
        (fun n => !n.intermediate)) = keptNodes sm [] items := by
  rw [List.filter_append]
  have h₁ : (keptNodes sm [] items).filter (fun n => !n.intermediate) =
      keptNodes sm [] items := by
    rw [List.filter_eq_self]
    intro n hn
    rw [keptNodes_intermediate_false sm items n hn]
    rfl
  have h₂ : (miss.map Node.make_intermediate).filter (fun n => !n.intermediate) = [] := by
    rw [List.filter_eq_nil_iff]
    intro n hn
    obtain ⟨k, -, rfl⟩ := List.mem_map.mp hn
    simp [Node.make_intermediate]
  rw [h₁, h₂, List.append_nil]

/-- C2: for every data/fields/schema input to get_nodes_edges, every output
edge has both endpoints among the output node identifiers, and for each
identifier referenced by some edge but absent from the kept
(non-intermediate) nodes there is exactly one placeholder node, labelled
Intermediate, with a single explanatory property and intermediate true, no
matter how many edges reference that identifier. -/
theorem get_nodes_edges_closure (parse : String → Option Json)
    (data : List (String × List Json)) (fields : List SpannerFieldInfo)
    (schema_json : Option Schema) :
    (∀ e ∈ (get_nodes_edges parse data fields schema_json).2,
        e.source ∈ (get_nodes_edges parse data fields schema_json).1.map (·.identifier) ∧
        e.destination ∈
          (get_nodes_edges parse data fields schema_json).1.map (·.identifier)) ∧
    (∀ i : String,
        (∃ e ∈ (get_nodes_edges parse data fields schema_json).2,
            i = e.source ∨ i = e.destination) →
        i ∉ ((get_nodes_edges parse data fields schema_json).1.filter
              (fun n => !n.intermediate)).map (·.identifier) →
        (get_nodes_edges parse data fields schema_json).1.filter
            (fun n => n.identifier == i) = [Node.make_intermediate i]) ∧
    (∀ j : String, (Node.make_intermediate j).labels = ["Intermediate"] ∧
        (Node.make_intermediate j).properties.length = 1 ∧
        (Node.make_intermediate j).intermediate = true) := by
  rw [get_nodes_edges_eq]
  set sm := SchemaManager.ofSchema schema_json with hsm
  set items := allItems parse data fields with hitems
  set kn := keptNodes sm [] items with hkn
  set ke := keptEdges [] items with hke
  set miss := missingIdentifiers ke (kn.map (·.identifier)) with hmiss
  refine ⟨?_, ?_, fun j => ⟨rfl, rfl, rfl⟩⟩
  · intro e he
    constructor
    · by_cases h : e.source ∈ kn.map (·.identifier)
      · simp only [List.map_append, List.mem_append, map_map_intermediate_ids]
        exact Or.inl h
      · have : e.source ∈ miss :=
          (mem_missingIdentifiers ke _ e.source).mpr ⟨h, e, he, Or.inl rfl⟩
        simp only [List.map_append, List.mem_append, map_map_intermediate_ids]
        exact Or.inr this
    · by_cases h : e.destination ∈ kn.map (·.identifier)
      · simp only [List.map_append, List.mem_append, map_map_intermediate_ids]
        exact Or.inl h
      · have : e.destination ∈ miss :=
          (mem_missingIdentifiers ke _ e.destination).mpr ⟨h, e, he, Or.inr rfl⟩
        simp only [List.map_append, List.mem_append, map_map_intermediate_ids]
        exact Or.inr this
  · rintro i ⟨e, he, hse⟩ hnk
    have hfil : ((kn ++ miss.map Node.make_intermediate).filter
        (fun n => !n.intermediate)) = kn := filter_nonintermediate sm items miss
    rw [hfil] at hnk
    have hm : i ∈ miss := (mem_missingIdentifiers ke _ i).mpr ⟨hnk, e, he, hse⟩
    rw [List.filter_append]
    have h₁ : kn.filter (fun n => n.identifier == i) = [] := by
      rw [List.filter_eq_nil_iff]
      intro n hn
      simp only [beq_iff_eq]
      intro hc
      exact hnk (List.mem_map.mpr ⟨n, hn, hc⟩)
    rw [h₁, filter_map_make_intermediate miss (nodup_missingIdentifiers ke _) i hm]
    rfl

/-- C3: for every input to get_nodes_edges the output node identifiers and
edge identifiers are pairwise distinct, and every kept (non-intermediate)
node and every kept edge comes from the first valid candidate carrying its
identifier in the processed item stream: later duplicates are discarded,
not merged. -/
theorem get_nodes_edges_dedup_first (parse : String → Option Json)
    (data : List (String × List Json)) (fields : List SpannerFieldInfo)
    (schema_json : Option Schema) :
    ((get_nodes_edges parse data fields schema_json).1.map (·.identifier)).Nodup ∧
    ((get_nodes_edges parse data fields schema_json).2.map (·.identifier)).Nodup ∧
    (∀ n ∈ (get_nodes_edges parse data fields schema_json).1, n.intermediate = false →
      ∃ it, (allItems parse data fields).find? (fun x => isNodeItem x &&
          ((Node.from_json x).identifier == n.identifier)) = some it ∧
        n = buildNode (SchemaManager.ofSchema schema_json) it) ∧
    (∀ e ∈ (get_nodes_edges parse data fields schema_json).2,
      ∃ it, (allItems parse data fields).find? (fun x => isEdgeItem x &&
          ((Edge.from_json x).identifier == e.identifier)) = some it ∧
        e = Edge.from_json it) := by
  rw [get_nodes_edges_eq]
  set sm := SchemaManager.ofSchema schema_json with hsm
  set items := allItems parse data fields with hitems
  set kn := keptNodes sm [] items with hkn
  set ke := keptEdges [] items with hke
  set miss := missingIdentifiers ke (kn.map (·.identifier)) with hmiss
  refine ⟨?_, ?_, ?_, ?_⟩
  · rw [List.map_append, map_map_intermediate_ids, List.nodup_append]
    refine ⟨keptNodes_ids_nodup sm items, nodup_missingIdentifiers ke _, ?_⟩
    intro i hi hm
    exact ((mem_missingIdentifiers ke _ i).mp hm).1 hi
  · exact keptEdges_ids_nodup items
  · intro n hn hni
    rcases List.mem_append.mp hn with hk | hmm
    · obtain ⟨-, it, hfind, hb⟩ := keptNodes_first sm items [] n hk
      exact ⟨it, hfind, hb⟩
    · obtain ⟨k, -, rfl⟩ := List.mem_map.mp hmm
      simp [Node.make_intermediate] at hni
  · intro e he
    obtain ⟨-, it, hfind, hb⟩ := keptEdges_first items [] e he
    exact ⟨it, hfind, hb⟩

/- ## Shape validation, spec side -/

theorem optIs_isStr_iff (o : Option Json) :
    optIs Json.isStr o = true ↔ ∃ s, o = some (Json.str s) := by
  cases o with
  | none => simp [optIs]
  | some v => cases v <;> simp [optIs, Json.isStr]

theorem optIs_isArr_iff (o : Option Json) :
    optIs Json.isArr o = true ↔ ∃ xs, o = some (Json.arr xs) := by
  cases o with
  | none => simp [optIs]
  | some v => cases v <;> simp [optIs, Json.isArr]

theorem optIs_isObj_iff (o : Option Json) :
    optIs Json.isObj o = true ↔ ∃ fs, o = some (Json.obj fs) := by
  cases o with
  | none => simp [optIs]
  | some v => cases v <;> simp [optIs, Json.isObj]

theorem isStr_iff (v : Json) : v.isStr = true ↔ ∃ s, v = Json.str s := by
  cases v <;> simp [Json.isStr]

theorem labelsAllStrings_iff (o : Option Json) :
    labelsAllStrings o = true ↔
      ∃ xs, o = some (Json.arr xs) ∧ ∀ x ∈ xs, ∃ s, x = Json.str s := by
  cases o with
  | none => simp [labelsAllStrings]
  | some v =>
    cases v <;> simp [labelsAllStrings, List.all_eq_true, isStr_iff]

/-- The node shape demanded by the specification: the required keys
identifier (a string), labels (a list of strings) and properties (an
object) are present with exactly those types. -/
def NodeShapeSpec (j : Json) : Prop :=
  (∃ s, j.lookupKey "identifier" = some (Json.str s)) ∧
  (∃ xs, j.lookupKey "labels" = some (Json.arr xs) ∧ ∀ x ∈ xs, ∃ s, x = Json.str s) ∧
  (∃ fs, j.lookupKey "properties" = some (Json.obj fs))

theorem kindIs_node_not_edge (j : Json) (h : kindIs j "node" = true) :
    kindIs j "edge" = false := by
  unfold kindIs at h ⊢
  cases hlk : j.lookupKey "kind" with
  | none => rfl
  | some v => cases v <;> simp_all

/-- C7: a candidate object whose kind is node passes shape validation
exactly when it carries the required keys identifier (string), labels
(list of strings) and properties (object) with those exact types, and a
candidate of kind node failing the validation is dropped silently: the
conversion loop state is unchanged, no error is reported. -/
theorem node_shape_validation (j : Json) :
    (Node.is_valid_node_json j = true ↔ NodeShapeSpec j) ∧
    (∀ (sm : SchemaManager) (st : ConvState),
      kindIs j "node" = true → Node.is_valid_node_json j = false →
      processItem sm st j = st) := by
  constructor
  · constructor
    · intro h
      simp only [Node.is_valid_node_json, Bool.and_eq_true] at h
      obtain ⟨⟨⟨⟨-, hid⟩, hlab⟩, hprop⟩, hall⟩ := h
      exact ⟨(optIs_isStr_iff _).mp hid, (labelsAllStrings_iff _).mp hall,
        (optIs_isObj_iff _).mp hprop⟩
    · rintro ⟨⟨s, hid⟩, ⟨xs, hxs, hstr⟩, ⟨fs, hfs⟩⟩
      simp only [Node.is_valid_node_json, Bool.and_eq_true]
      refine ⟨⟨⟨⟨?_, ?_⟩, ?_⟩, ?_⟩, ?_⟩
      · simp [List.all_eq_true, hid, hxs, hfs]
      · simp [optIs_isStr_iff, hid]
      · simp [optIs_isArr_iff, hxs]
      · simp [optIs_isObj_iff, hfs]
      · rw [labelsAllStrings_iff]
        exact ⟨xs, hxs, hstr⟩
  · intro sm st hkind hinvalid
    have hn : isNodeItem j = false := by
      unfold isNodeItem
      rw [hinvalid, Bool.and_false]
    have he : isEdgeItem j = false := by
      unfold isEdgeItem
      rw [kindIs_node_not_edge j hkind, Bool.false_and]
    simp [processItem, hn, he]

/-- A node candidate object as produced by the query engine: kind node,
an identifier, a label array and a property bag. -/
def mkNodeJson (id : String) (labels : List Json) (props : List (String × Json)) : Json :=
  Json.obj [("kind", Json.str "node"), ("identifier", Json.str id),
            ("labels", Json.arr labels), ("properties", Json.obj props)]

/-- C10: a candidate node with an empty labels list passes shape
validation (the per-label check holds vacuously), resolves no key
properties under any schema manager, and materializes as an output node
with empty labels and empty key_property_names. -/
theorem empty_labels_node_accepted (id : String) (props : List (String × Json))
    (schema_json : Option Schema) (parse : String → Option Json) :
    Node.is_valid_node_json (mkNodeJson id [] props) = true ∧
    (∀ sm : SchemaManager,
      sm.get_key_property_names (Node.from_json (mkNodeJson id [] props)) = []) ∧
    get_nodes_edges parse [("c", [mkNodeJson id [] props])] [⟨"c", "JSON"⟩] schema_json =
      ([{ identifier := id, labels := [], key_property_names := [],
          properties := props, intermediate := false }], []) := by
  have hvalid : Node.is_valid_node_json (mkNodeJson id [] props) = true := rfl
  have hkey : ∀ sm : SchemaManager,
      sm.get_key_property_names (Node.from_json (mkNodeJson id [] props)) = [] := by
    intro sm
    by_cases h : props.length = 0 <;>
      simp [SchemaManager.get_key_property_names, Node.from_json, mkNodeJson,
        Json.lookupKey, lookupPairs, Json.strListD, Json.objD, Json.strD, h]
  refine ⟨hvalid, hkey, ?_⟩
  rw [get_nodes_edges_eq]
  have hitems : allItems parse [("c", [mkNodeJson id [] props])] [⟨"c", "JSON"⟩] =
      [mkNodeJson id [] props] := rfl
  rw [hitems]
  have hnode : isNodeItem (mkNodeJson id [] props) = true := by
    unfold isNodeItem
    rw [hvalid]
    rfl
  have hbuild : buildNode (SchemaManager.ofSchema schema_json) (mkNodeJson id [] props) =
      { identifier := id, labels := [], key_property_names := [],
        properties := props, intermediate := false } := by
    simp only [buildNode]
    rw [hkey]
    rfl
  simp [keptNodes, keptEdges, hnode, hbuild,
    not_edgeItem_of_nodeItem _ hnode, missingIdentifiers]

/- ## Schema manager claims -/

theorem keyPropsLoop_spec (props : List (String × Json)) (labels : List String) :
    ∀ tables : List NodeTable,
      keyPropsLoop false props (pySorted labels) tables =
        match tables.find? (fun t => t.labelNames.isPerm labels &&
            t.keyColumns.all (fun k => (lookupPairs props k).isSome)) with
        | some t => t.keyColumns
        | none => [] := by
  intro tables
  induction tables with
  | nil => rfl
  | cons t rest ih =>
    have hcond : (t.labelNames.length == (pySorted labels).length &&
          (pySorted t.labelNames == pySorted labels) &&
          t.keyColumns.all (fun k => (lookupPairs props k).isSome)) =
        (t.labelNames.isPerm labels &&
          t.keyColumns.all (fun k => (lookupPairs props k).isSome)) := by
      rcases hp : t.labelNames.isPerm labels with hf | ht
      · have hnp : ¬ List.Perm t.labelNames labels := fun hc => by
          rw [List.isPerm_iff.mpr hc] at hp
          exact Bool.true_eq_false ▸ hp
        have hs : pySorted t.labelNames ≠ pySorted labels := fun hc =>
          hnp ((pySorted_eq_iff_perm _ _).mp hc)
        simp [hs]
      · have hperm : List.Perm t.labelNames labels := List.isPerm_iff.mp hp
        have hs : pySorted t.labelNames = pySorted labels := pySorted_eq_of_perm _ _ hperm
        have hl : t.labelNames.length = (pySorted labels).length := by
          rw [(pySorted_perm labels).length_eq]
          exact hperm.length_eq
        simp [hs, hl]
    by_cases hfind : (t.labelNames.isPerm labels &&
        t.keyColumns.all (fun k => (lookupPairs props k).isSome)) = true
    · have hf : List.find? (fun t => t.labelNames.isPerm labels &&
          t.keyColumns.all (fun k => (lookupPairs props k).isSome)) (t :: rest) = some t :=
        List.find?_cons_of_pos _ hfind
      unfold keyPropsLoop
      rw [Bool.false_and, if_neg (by simp), hcond, if_pos hfind, hf]
    · have hf : List.find? (fun t => t.labelNames.isPerm labels &&
          t.keyColumns.all (fun k => (lookupPairs props k).isSome)) (t :: rest) =
            List.find? (fun t => t.labelNames.isPerm labels &&
          t.keyColumns.all (fun k => (lookupPairs props k).isSome)) rest :=
        List.find?_cons_of_neg _ (by simpa using hfind)
      unfold keyPropsLoop
      rw [Bool.false_and, if_neg (by simp), hcond, if_neg hfind, hf, ih]

/-- C4: with the dynamic-label flag unset, get_key_property_names returns
the empty sequence for a node without properties or labels, agrees with
the specification reading (key columns of the first node table whose
label multiset equals the node label multiset, compared
order-independently, with all key columns among the node property keys),
and is invariant under permutations of the node labels. -/
theorem get_key_property_names_resolves (sm : SchemaManager) (node : Node)
    (hdyn : sm.dynamic_node = false) :
    sm.get_key_property_names node = resolveKeyPropertiesSpec sm.nodeTables node ∧
    (node.properties = [] ∨ node.labels = [] → sm.get_key_property_names node = []) ∧
    (∀ labels₂ : List String, List.Perm node.labels labels₂ →
      sm.get_key_property_names { node with labels := labels₂ } =
        sm.get_key_property_names node) := by
  refine ⟨?_, ?_, ?_⟩
  · unfold SchemaManager.get_key_property_names resolveKeyPropertiesSpec
    by_cases hp : node.properties.length = 0
    · simp [hp]
    · by_cases hl : node.labels = []
      · simp [hp, hl]
      · have hl0 : node.labels.length ≠ 0 := by
          simpa [List.length_eq_zero] using hl
        rw [if_neg (by simpa using hp), if_neg (by simpa using hl0),
          if_neg (by simp [hp, hl]), hdyn]
        exact keyPropsLoop_spec node.properties node.labels sm.nodeTables
  · intro h
    unfold SchemaManager.get_key_property_names
    rcases h with h | h
    · simp [h]
    · by_cases hp : node.properties.length = 0 <;> simp [h, hp]
  · intro labels₂ hperm
    unfold SchemaManager.get_key_property_names
    have hs : pySorted labels₂ = pySorted node.labels :=
      pySorted_eq_of_perm _ _ hperm.symm
    have hlen : labels₂.length = node.labels.length := hperm.symm.length_eq
    simp only [hs, hlen]

/-- A two-table schema whose first node table declares a non-empty
dynamic-label expression and whose last table declares none. -/
def dynFlagSchemaTables : List NodeTable :=
  [{ labelNames := ["Person"], keyColumns := ["id"], propertyDefinitions := [],
     dynamicLabelExpr := "label_col" },
   { labelNames := ["Account"], keyColumns := ["account_id"], propertyDefinitions := [],
     dynamicLabelExpr := "" }]

/-- C6: the loop of _determine_dynamic_node reassigns the flag on every
iteration, so a table with a non-empty dynamicLabelExpr that is not last
in nodeTables leaves the flag false: the position of the table matters,
contrary to the documented any-table rule. -/
theorem determine_dynamic_node_last_wins :
    (∃ t ∈ dynFlagSchemaTables, t.dynamicLabelExpr ≠ "") ∧
    determine_dynamic_node dynFlagSchemaTables = false ∧
    (SchemaManager.ofSchema (some { nodeTables := dynFlagSchemaTables })).dynamic_node
      = false := by
  refine ⟨⟨dynFlagSchemaTables.head (by simp [dynFlagSchemaTables]), by
    simp [dynFlagSchemaTables]⟩, by decide, by decide⟩

/- ## database.py and cloud_database.py : query results and adapters -/

/-- SpannerQueryResult from database.py.  Backend exceptions are modelled
as string messages; rows are raw row tuples. -/
structure SpannerQueryResult where
  data : List (String × List Json)
  fields : List SpannerFieldInfo
  rows : List (List Json)
  schema_json : Option Schema
  err : Option String

/-- Keep the first occurrence of every name, like the key set of a Python
dict comprehension over possibly repeated keys. -/
def firstDedup : List String → List String
  | [] => []
  | x :: xs => x :: firstDedup (xs.filter (fun y => !(y == x)))
termination_by l => l.length
decreasing_by
  simp only [List.length_cons]
  exact Nat.lt_succ_of_le (List.length_filter_le _ _)

/-- The dict comprehension building the initial columns:
one empty column per field name. -/
def initData (fields : List SpannerFieldInfo) : List (String × List Json) :=
  (firstDedup (fields.map (·.name))).map (fun n => (n, []))

/-- Python `data[name].append(v)`: append to the first column of that
name. -/
def appendToColumn (data : List (String × List Json)) (name : String) (v : Json) :
    List (String × List Json) :=
  match data with
  | [] => []
  | (k, vs) :: rest =>
    if k = name then (k, vs ++ [v]) :: rest
    else (k, vs) :: appendToColumn rest name v

/-- The inner `for field, value in zip(fields, row)` loop of the data
building phase. -/
def appendRow (fields : List SpannerFieldInfo) (data : List (String × List Json))
    (row : List Json) : List (String × List Json) :=
  (fields.zip row).foldl (fun d q => appendToColumn d q.1.name q.2) data

/-- The row loop of MockSpannerDatabase.execute_query: stop as soon as
the enumeration index reaches the limit (no truncation when the limit is
None). -/
def takeLimited (limit : Option Nat) (rows : List (List Json)) : List (List Json) :=
  match limit with
  | none => rows
  | some l => rows.take l

/-- MockSpannerDatabase.execute_query from database.py, over the fixture
fields, rows and schema document loaded from the local files.  The query
argument is the ignored positional underscore parameter. -/
def MockSpannerDatabase.execute_query (fixtureFields : List SpannerFieldInfo)
    (fixtureRows : List (List Json)) (fixtureSchema : Schema)
    (_query : String) (limit : Option Nat) : SpannerQueryResult :=
  let fields := fixtureFields
  let rows := fixtureRows
  let data := initData fields
  if fields.length = 0 then
    { data := data, fields := fields, rows := rows,
      schema_json := some fixtureSchema, err := none }
  else
    { data := (takeLimited limit rows).foldl (appendRow fields) data,
      fields := fields, rows := rows,
      schema_json := some fixtureSchema, err := none }

/-- ASCII uppercase of a Python str.upper() call, on the character
list (the queries involved are ASCII). -/
def upperAscii (s : String) : String := String.mk (s.data.map Char.toUpper)

/-- Python `query.strip().split()`: maximal whitespace-free words. -/
def wordsAux : List Char → List Char → List String
  | [], acc => if acc.isEmpty then [] else [String.mk acc.reverse]
  | c :: rest, acc =>
    if c.isWhitespace then
      if acc.isEmpty then wordsAux rest []
      else String.mk acc.reverse :: wordsAux rest []
    else wordsAux rest (c :: acc)

def pyWords (q : String) : List String := wordsAux q.data []

/-- CloudSpannerDatabase._extract_graph_name: fewer than three words, or
a first word other than GRAPH (case-insensitively), raises ValueError,
which _get_schema_for_graph catches into a missing schema. -/
def extract_graph_name (query : String) : Option String :=
  match pyWords query with
  | w₀ :: w₁ :: _ :: _ => if upperAscii w₀ = "GRAPH" then some w₁ else none
  | _ => none

/-- The live backend as seen by the adapter: the schema-catalog query for
a graph name and the main query execution, each able to raise. -/
structure CloudBackend where
  schemaLookup : String → Except String (Option Schema)
  runQuery : String → Except String (List (List Json) × List SpannerFieldInfo)

/-- The schema phase of CloudSpannerDatabase.execute_query: skipped for
test queries; a malformed graph query yields no schema document; the
catalog query itself may raise (it is not inside any try block). -/
def schemaPhase (backend : CloudBackend) (query : String) (is_test_query : Bool) :
    Except String (Option Schema) :=
  if is_test_query then Except.ok none
  else
    match extract_graph_name query with
    | none => Except.ok none
    | some g => backend.schemaLookup g

/-- CloudSpannerDatabase.execute_query from cloud_database.py.  An
Except.error result models an exception escaping the method. -/
def CloudSpannerDatabase.execute_query (backend : CloudBackend) (query : String)
    (is_test_query : Bool) : Except String SpannerQueryResult :=
  match schemaPhase backend query is_test_query with
  | Except.error e => Except.error e
  | Except.ok schema_json =>
    match backend.runQuery query with
    | Except.error e =>
      Except.ok
        { data := [], fields := [], rows := [],
          schema_json := schema_json, err := some e }
    | Except.ok (rows, fields) =>
      let data := initData fields
      if fields.length = 0 then
        Except.ok
          { data := data, fields := fields, rows := rows,
            schema_json := schema_json, err := none }
      else
        Except.ok
          { data := rows.foldl (appendRow fields) data,
            fields := fields, rows := rows,
            schema_json := schema_json, err := none }

/- ## exec_env.py : the instance cache -/

/-- A constructed database adapter.  objectId models Python object
identity (construction order); the connection triple is recorded for the
cloud constructor call.  The mock constructor takes no connection
arguments, so those fields stay empty for mocks. -/
structure AdapterInstance where
  objectId : Nat
  isMock : Bool
  project : String
  instanceId : String
  database : String
deriving DecidableEq

/-- The module state of exec_env.py: the database_instances dict plus the
allocation counter for fresh object identities. -/
structure ExecEnvState where
  database_instances : List (String × AdapterInstance)
  nextObjectId : Nat
deriving DecidableEq

def emptyExecEnv : ExecEnvState := ⟨[], 0⟩

/-- The key layout of get_database_instance. -/
def cacheKey (project instanceId database : String) : String :=
  project ++ "_" ++ instanceId ++ "_" ++ database

/-- get_database_instance from exec_env.py: a mock request constructs a
fresh mock adapter without touching the cache; otherwise the cache is
consulted and populated on miss. -/
def get_database_instance (project instanceId database : String) (mock : Bool)
    (st : ExecEnvState) : AdapterInstance × ExecEnvState :=
  if mock then
    (⟨st.nextObjectId, true, "", "", ""⟩,
     { st with nextObjectId := st.nextObjectId + 1 })
  else
    let key := cacheKey project instanceId database
    match st.database_instances.lookup key with
    | some db => (db, st)
    | none =>
      let db : AdapterInstance := ⟨st.nextObjectId, false, project, instanceId, database⟩
      (db, { database_instances := st.database_instances ++ [(key, db)],
             nextObjectId := st.nextObjectId + 1 })

/- ## graph_server.py : node expansion -/

/-- The supported property types of graph_server.py. -/
def PROPERTY_TYPE_SET : List String :=
  ["BOOL", "BYTES", "DATE", "ENUM", "INT64", "NUMERIC",
   "FLOAT32", "FLOAT64", "STRING", "TIMESTAMP"]

inductive EdgeDirection where
  | INCOMING
  | OUTGOING
deriving DecidableEq

/-- key and value are stored as received; type_str is the original-case
type string. -/
structure NodePropertyForDataExploration where
  key : Json
  value : Json
  type_str : String

def lowerAscii (s : String) : String := String.mk (s.data.map Char.toLower)

/-- Python str() on the JSON scalars that reach the f-strings of
graph_server.py. -/
def pyStr : Json → String
  | Json.str s => s
  | Json.num n => toString n
  | Json.bool b => if b then "True" else "False"
  | Json.null => "None"
  | Json.arr _ => ""
  | Json.obj _ => ""

/-- is_valid_property_type from graph_server.py: case-insensitive
membership in the allowed set; empty input and unknown types raise. -/
def is_valid_property_type (property_type : String) : Except String Bool :=
  if property_type = "" then Except.error "Property type must be provided"
  else if PROPERTY_TYPE_SET.contains (upperAscii property_type) then Except.ok true
  else Except.error ("Invalid property type: " ++ upperAscii property_type)

/-- Python str.isdigit (ASCII digits): nonempty and all digits. -/
def pyIsdigit (s : String) : Bool := !s.data.isEmpty && s.data.all Char.isDigit

def spanDigits : List Char → Nat × List Char
  | [] => (0, [])
  | c :: rest =>
    if c.isDigit then
      let (n, r) := spanDigits rest
      (n + 1, r)
    else (0, c :: rest)

def floatMantissa (cs : List Char) : Bool × List Char :=
  let (n₁, r₁) := spanDigits cs
  match r₁ with
  | '.' :: r₂ =>
    let (n₂, r₃) := spanDigits r₂
    (decide (0 < n₁ + n₂), r₃)
  | _ => (decide (0 < n₁), r₁)

def floatExponent : List Char → Bool
  | [] => true
  | c :: rest =>
    if c = 'e' ∨ c = 'E' then
      let rest₂ := match rest with
        | d :: ds => if d = '+' ∨ d = '-' then ds else d :: ds
        | [] => []
      let (n, r) := spanDigits rest₂
      decide (0 < n) && r.isEmpty
    else false

/-- Modelled from the external float() builtin: a numeric string literal
with optional surrounding whitespace, sign, fraction and exponent. -/
def isFloatLiteral (s : String) : Bool :=
  let cs := ((s.data.dropWhile Char.isWhitespace).reverse.dropWhile
    Char.isWhitespace).reverse
  let cs₂ := match cs with
    | c :: rest => if c = '+' ∨ c = '-' then rest else c :: rest
    | [] => []
  let (ok, r) := floatMantissa cs₂
  ok && floatExponent r

/-- The try float(value) check: numbers and booleans convert, numeric
strings parse, everything else raises. -/
def pyFloatOk : Json → Bool
  | Json.num _ => true
  | Json.bool _ => true
  | Json.str s => isFloatLiteral s
  | _ => false

/-- The per-property validation loop body of
validate_node_expansion_request (Python bool is a subclass of int, so a
boolean passes the isinstance int check of the INT64/NUMERIC branch). -/
def validateProperty (prop : Json) : Except String NodePropertyForDataExploration :=
  match prop with
  | Json.obj fs =>
    match lookupPairs fs "key", lookupPairs fs "value", lookupPairs fs "type" with
    | some keyJ, some valueJ, some typeJ =>
      match typeJ with
      | Json.str prop_type_str =>
        match is_valid_property_type prop_type_str with
        | Except.error e => Except.error ("Invalid property type in property: " ++ e)
        | Except.ok _ =>
          if prop_type_str = "INT64" ∨ prop_type_str = "NUMERIC" then
            if (match valueJ with
                | Json.num _ => true
                | Json.bool _ => true
                | Json.str s => pyIsdigit s
                | _ => false) then
              Except.ok ⟨keyJ, valueJ, prop_type_str⟩
            else
              Except.error ("Property value must be a number for type " ++ prop_type_str)
          else if prop_type_str = "FLOAT32" ∨ prop_type_str = "FLOAT64" then
            if pyFloatOk valueJ then Except.ok ⟨keyJ, valueJ, prop_type_str⟩
            else
              Except.error ("Property value must be a valid float for type " ++ prop_type_str)
          else if prop_type_str = "BOOL" then
            if (match valueJ with
                | Json.bool _ => true
                | Json.str s => lowerAscii s = "true" ∨ lowerAscii s = "false"
                | _ => false) then
              Except.ok ⟨keyJ, valueJ, prop_type_str⟩
            else
              Except.error ("Property value must be a boolean for type " ++ prop_type_str)
          else Except.ok ⟨keyJ, valueJ, prop_type_str⟩
      | _ => Except.error "Property type must be a string"
    | _, _, _ => Except.error "Property is missing required fields (key, value, type)"
  | _ => Except.error "Property must be an object"

def validateProps : List Json → Except String (List NodePropertyForDataExploration)
  | [] => Except.ok []
  | p :: rest =>
    match validateProperty p with
    | Except.error e => Except.error e
    | Except.ok np =>
      match validateProps rest with
      | Except.error e => Except.error e
      | Except.ok nps => Except.ok (np :: nps)

/-- EdgeDirection(value): only exact INCOMING or OUTGOING parse. -/
def parseDirection : Option String → Except String EdgeDirection
  | some "INCOMING" => Except.ok EdgeDirection.INCOMING
  | some "OUTGOING" => Except.ok EdgeDirection.OUTGOING
  | _ => Except.error "Invalid direction: must be INCOMING or OUTGOING"

/-- The merged params-and-request dictionary of a node-expansion call
(instance is a reserved word in Lean, hence instanceId). -/
structure ExpansionRequest where
  project : Option String
  instanceId : Option String
  database : Option String
  graph : Option String
  uid : Option String
  node_labels : Option Json
  node_properties : Option Json
  direction : Option String
  edge_label : Option String

/-- The combined missing-required-fields collection, in declaration
order. -/
def requiredFieldsMissing (data : ExpansionRequest) : List String :=
  (if data.project.isNone then ["project"] else []) ++
  (if data.instanceId.isNone then ["instance"] else []) ++
  (if data.database.isNone then ["database"] else []) ++
  (if data.graph.isNone then ["graph"] else []) ++
  (if data.uid.isNone then ["uid"] else []) ++
  (if data.node_labels.isNone then ["node_labels"] else []) ++
  (if data.direction.isNone then ["direction"] else [])

/-- Python str.join with a separator. -/
def joinSep (sep : String) : List String → String
  | [] => ""
  | [x] => x
  | x :: y :: ys => x ++ sep ++ joinSep sep (y :: ys)

/-- validate_node_expansion_request from graph_server.py. -/
def validate_node_expansion_request (data : ExpansionRequest) :
    Except String (List NodePropertyForDataExploration × EdgeDirection) :=
  let missing := requiredFieldsMissing data
  if !missing.isEmpty then
    Except.error ("Missing required fields: " ++ joinSep ", " missing)
  else
    match data.node_labels with
    | some (Json.arr xs) =>
      if xs.all Json.isStr then
        match (match data.node_properties with
               | none => Except.ok ([] : List Json)
               | some (Json.arr ps) => Except.ok ps
               | some _ => Except.error "node_properties must be an array") with
        | Except.error e => Except.error e
        | Except.ok ps =>
          match validateProps ps with
          | Except.error e => Except.error e
          | Except.ok props =>
            match parseDirection data.direction with
            | Except.error e => Except.error e
            | Except.ok dir => Except.ok (props, dir)
      else Except.error "Each node label must be a string"
    | some _ => Except.error "node_labels must be an array"
    | none => Except.error "node_labels must be an array"

/-- The triple-quote wrapper of graph_server.py, assembled from the
apostrophe code point. -/
def tripleQuote : String := String.mk [squoteChar, squoteChar, squoteChar]

/-- The types whose values are embedded unquoted in the synthesized
query. -/
def NUMERIC_UNQUOTED_TYPES : List String :=
  ["INT64", "NUMERIC", "FLOAT32", "FLOAT64", "BOOL"]

/-- The value_str computation of execute_node_expansion. -/
def renderPropertyValue (p : NodePropertyForDataExploration) : String :=
  if NUMERIC_UNQUOTED_TYPES.contains p.type_str then pyStr p.value
  else tripleQuote ++ pyStr p.value ++ tripleQuote

/-- One entry of node_property_strings. -/
def propertyFragment (p : NodePropertyForDataExploration) : String :=
  "n." ++ pyStr p.key ++ "=" ++ renderPropertyValue p

/-- The edge token and path pattern of execute_node_expansion: an absent
or empty edge label is falsy in Python. -/
def pathPattern (direction : EdgeDirection) (edge_label : Option String) : String :=
  let edge := match edge_label with
    | none => "e"
    | some lbl => if lbl = "" then "e" else "e:" ++ lbl
  match direction with
  | EdgeDirection.OUTGOING => "(n)-[" ++ edge ++ "]->(d)"
  | EdgeDirection.INCOMING => "(n)<-[" ++ edge ++ "]-(d)"

/-- The node_label_str computation. -/
def nodeLabelString (node_labels : List String) : String :=
  if node_labels.length > 0 then ": " ++ joinSep " & " node_labels else ""

/-- The synthesized two-stage query of execute_node_expansion, matching
the f-string layout of graph_server.py. -/
def buildExpansionQuery (graph uid : String) (node_labels : List String)
    (props : List NodePropertyForDataExploration) (direction : EdgeDirection)
    (edge_label : Option String) : String :=
  "\n        GRAPH " ++ graph ++
  "\n        LET uid = \"" ++ uid ++ "\"" ++
  "\n        MATCH (n" ++ nodeLabelString node_labels ++ ")" ++
  "\n        WHERE " ++ joinSep " and " (props.map propertyFragment) ++ " " ++
  (if !(props.map propertyFragment).isEmpty then "and" else "") ++
  " STRING(TO_JSON(n).identifier) = uid" ++
  "\n        RETURN n\n\n        NEXT\n\n        MATCH " ++
  pathPattern direction edge_label ++
  "\n        RETURN TO_JSON(e) as e, TO_JSON(d) as d\n        "

/-- execute_node_expansion from graph_server.py, up to the synthesized
query text (the execution of that query is the ordinary query path). -/
def execute_node_expansion_query (data : ExpansionRequest) : Except String String :=
  match validate_node_expansion_request data with
  | Except.error e => Except.error e
  | Except.ok (node_properties, direction) =>
    Except.ok (buildExpansionQuery (data.graph.getD "") (data.uid.getD "")
      (Json.strListD data.node_labels) node_properties direction data.edge_label)

/- ## Claims on the database adapter and the instance cache -/

/-- A backend whose schema catalog query raises. -/
def schemaFailureBackend : CloudBackend :=
  { schemaLookup := fun _ => Except.error "schema catalog failure"
    runQuery := fun _ => Except.ok ([], []) }

/-- C1 counterexample: on a graph-shaped query against a backend whose
schema catalog lookup fails, execute_query lets the exception escape
instead of capturing it in the returned QueryResult. -/
theorem cloud_execute_query_schema_failure_escapes :
    CloudSpannerDatabase.execute_query schemaFailureBackend
        "GRAPH g MATCH (n) RETURN n" false =
      Except.error "schema catalog failure" := by rfl

/-- C1 (amended): when the schema phase does not itself raise, no
exception escapes execute_query; a failure of the main query execution is
captured in the err field, with empty data, rows and fields, and the
already-resolved schema document is carried in the result. -/
theorem cloud_execute_query_captures_backend_error (backend : CloudBackend)
    (query : String) (is_test_query : Bool) (s : Option Schema)
    (hschema : schemaPhase backend query is_test_query = Except.ok s) :
    (∃ r, CloudSpannerDatabase.execute_query backend query is_test_query =
        Except.ok r) ∧
    (∀ e, backend.runQuery query = Except.error e →
      CloudSpannerDatabase.execute_query backend query is_test_query =
        Except.ok { data := [], fields := [], rows := [],
                    schema_json := s, err := some e }) := by
  unfold CloudSpannerDatabase.execute_query
  rw [hschema]
  constructor
  · cases hrun : backend.runQuery query with
    | error e => exact ⟨_, rfl⟩
    | ok rf =>
      obtain ⟨rows, fields⟩ := rf
      by_cases hf : fields.length = 0 <;> simp [hf]
  · intro e hrun
    rw [hrun]

/-- If a key is absent from the first association list, lookup moves past
it. -/
theorem lookup_append_of_none {α : Type} (l₁ l₂ : List (String × α)) (k : String)
    (h : l₁.lookup k = none) : (l₁ ++ l₂).lookup k = l₂.lookup k := by
  induction l₁ with
  | nil => rfl
  | cons pr rest ih =>
    obtain ⟨k₁, v₁⟩ := pr
    by_cases hk : (k == k₁) = true
    · simp [List.lookup, hk] at h
    · simp only [List.cons_append, List.lookup, hk] at h ⊢
      exact ih h

/-- C8 counterexample: the triples (a_b, c, d) and (a, b_c, d) are
distinct, yet the underscore-joined cache keys coincide, so the second
lookup returns the adapter cached for the first triple. -/
theorem instance_cache_distinct_triples_share_entry :
    (("a_b", "c", "d") : String × String × String) ≠ ("a", "b_c", "d") ∧
    cacheKey "a_b" "c" "d" = cacheKey "a" "b_c" "d" ∧
    (get_database_instance "a" "b_c" "d" false
        (get_database_instance "a_b" "c" "d" false emptyExecEnv).2).1 =
      (get_database_instance "a_b" "c" "d" false emptyExecEnv).1 := by decide

/-- C8 (amended): repeated non-mock lookups of the same triple return the
same cached adapter and leave the state unchanged; cache entries are
never evicted by any lookup; a mock lookup leaves the cache untouched and
returns a fresh adapter stored nowhere; and two non-mock lookups whose
underscore-joined keys differ (starting from the empty cache) yield
distinct adapters.  Distinct triples with colliding joined keys share one
entry. -/
theorem instance_cache_lookup_behavior (p i d : String) (st : ExecEnvState) :
    ((get_database_instance p i d false
        (get_database_instance p i d false st).2).1 =
      (get_database_instance p i d false st).1 ∧
     (get_database_instance p i d false
        (get_database_instance p i d false st).2).2 =
      (get_database_instance p i d false st).2) ∧
    (∀ (m : Bool) kv, kv ∈ st.database_instances →
      kv ∈ (get_database_instance p i d m st).2.database_instances) ∧
    ((get_database_instance p i d true st).2.database_instances =
        st.database_instances ∧
     (get_database_instance p i d true st).1.isMock = true ∧
     (∀ kv ∈ st.database_instances, kv.2.objectId < st.nextObjectId →
        kv.2 ≠ (get_database_instance p i d true st).1)) ∧
    (∀ p₂ i₂ d₂ : String, cacheKey p i d ≠ cacheKey p₂ i₂ d₂ →
      (get_database_instance p₂ i₂ d₂ false
          (get_database_instance p i d false emptyExecEnv).2).1 ≠
        (get_database_instance p i d false emptyExecEnv).1) := by
  refine ⟨?_, ?_, ⟨rfl, rfl, ?_⟩, ?_⟩
  · unfold get_database_instance
    simp only [Bool.false_eq_true, if_false]
    cases hlk : st.database_instances.lookup (cacheKey p i d) with
    | some db => simp [hlk]
    | none =>
      have h₂ : ((st.database_instances ++
          [(cacheKey p i d,
            (⟨st.nextObjectId, false, p, i, d⟩ : AdapterInstance))]).lookup
            (cacheKey p i d)) =
          some (⟨st.nextObjectId, false, p, i, d⟩ : AdapterInstance) := by
        rw [lookup_append_of_none _ _ _ hlk]
        simp [List.lookup]
      simp [hlk, h₂]
  · intro m kv hkv
    unfold get_database_instance
    by_cases hm : m = true
    · simp [hm, hkv]
    · simp only [Bool.not_eq_true] at hm
      subst hm
      simp only [Bool.false_eq_true, if_false]
      cases hlk : st.database_instances.lookup (cacheKey p i d) with
      | some db => simpa using hkv
      | none => simp [hkv]
  · intro kv hkv hlt heq
    have hobj : (get_database_instance p i d true st).1.objectId = st.nextObjectId := rfl
    rw [heq, hobj] at hlt
    exact lt_irrefl _ hlt
  · intro p₂ i₂ d₂ hkey
    unfold get_database_instance emptyExecEnv
    simp only [Bool.false_eq_true, if_false, List.lookup, List.nil_append]
    have hk₂ : ((cacheKey p₂ i₂ d₂ == cacheKey p i d) : Bool) = false := by
      simpa using fun hc => hkey hc.symm
    simp [hk₂]

/- ## Claim on the mock adapter -/

theorem zip_fst_sublist {α β : Type} :
    ∀ (l₁ : List α) (l₂ : List β), ((l₁.zip l₂).map Prod.fst).Sublist l₁ := by
  intro l₁
  induction l₁ with
  | nil => intro l₂; simp
  | cons x xs ih =>
    intro l₂
    cases l₂ with
    | nil => simp
    | cons y ys =>
      rw [List.zip_cons_cons, List.map_cons]
      exact (ih ys).cons₂ x

theorem mem_appendToColumn (data : List (String × List Json)) (name : String)
    (v : Json) :
    ∀ p ∈ appendToColumn data name v,
      ∃ q ∈ data, q.1 = p.1 ∧ (p.2 = q.2 ∨ (p.1 = name ∧ p.2 = q.2 ++ [v])) := by
  induction data with
  | nil => intro p hp; simp [appendToColumn] at hp
  | cons pr rest ih =>
    obtain ⟨k, vs⟩ := pr
    intro p hp
    by_cases hk : k = name
    · rw [appendToColumn, if_pos hk] at hp
      rcases List.mem_cons.mp hp with rfl | hp
      · exact ⟨(k, vs), List.mem_cons_self _ _, rfl, Or.inr ⟨hk, rfl⟩⟩
      · exact ⟨p, List.mem_cons_of_mem _ hp, rfl, Or.inl rfl⟩
    · rw [appendToColumn, if_neg hk] at hp
      rcases List.mem_cons.mp hp with rfl | hp
      · exact ⟨(k, vs), List.mem_cons_self _ _, rfl, Or.inl rfl⟩
      · obtain ⟨q, hq, hq₁, hq₂⟩ := ih p hp
        exact ⟨q, List.mem_cons_of_mem _ hq, hq₁, hq₂⟩

theorem mem_foldl_appendToColumn :
    ∀ (pairs : List (SpannerFieldInfo × Json)),
      (pairs.map (fun q => q.1.name)).Nodup →
    ∀ (data : List (String × List Json)) (p : String × List Json),
      p ∈ pairs.foldl (fun d q => appendToColumn d q.1.name q.2) data →
      ∃ q ∈ data, q.1 = p.1 ∧
        p.2.length ≤ q.2.length +
          (if p.1 ∈ pairs.map (fun q => q.1.name) then 1 else 0) := by
  intro pairs
  induction pairs with
  | nil =>
    intro _ data p hp
    exact ⟨p, hp, rfl, by simp⟩
  | cons pr rest ih =>
    intro hnd data p hp
    have hnd₂ : (pr.1.name :: rest.map (fun q => q.1.name)).Nodup := by
      simpa using hnd
    obtain ⟨hhd, htl⟩ := List.nodup_cons.mp hnd₂
    rw [List.foldl_cons] at hp
    obtain ⟨q₁, hq₁, hq₁eq, hq₁len⟩ := ih htl _ p hp
    obtain ⟨q, hq, hqeq, hqcase⟩ := mem_appendToColumn data pr.1.name pr.2 q₁ hq₁
    rcases hqcase with heq | ⟨hname, happ⟩
    · refine ⟨q, hq, hqeq.trans hq₁eq, ?_⟩
      rw [← heq]
      refine hq₁len.trans (Nat.add_le_add_left ?_ _)
      by_cases hmem : p.1 ∈ rest.map (fun q => q.1.name)
      · simp [hmem, List.mem_cons]
      · simp [hmem]
    · have hp₁ : p.1 = pr.1.name := by rw [← hq₁eq, hname]
      have hnotrest : p.1 ∉ rest.map (fun q => q.1.name) := by
        rw [hp₁]
        exact hhd
      refine ⟨q, hq, hqeq.trans hq₁eq, ?_⟩
      have h₁ : q₁.2.length = q.2.length + 1 := by rw [happ]; simp
      rw [if_pos (by simp [hp₁])]
      calc p.2.length ≤ q₁.2.length + 0 := by simpa [hnotrest] using hq₁len
        _ = q.2.length + 1 := by rw [h₁]

theorem mem_foldl_appendRow (fields : List SpannerFieldInfo)
    (hnd : (fields.map (·.name)).Nodup) :
    ∀ (rws : List (List Json)) (data : List (String × List Json))
      (p : String × List Json),
      p ∈ rws.foldl (appendRow fields) data →
      ∃ q ∈ data, q.1 = p.1 ∧ p.2.length ≤ q.2.length + rws.length := by
  intro rws
  induction rws with
  | nil =>
    intro data p hp
    exact ⟨p, hp, rfl, by simp⟩
  | cons row rest ih =>
    intro data p hp
    rw [List.foldl_cons] at hp
    obtain ⟨q₁, hq₁, hq₁eq, hq₁len⟩ := ih _ p hp
    have hzipnd : ((fields.zip row).map (fun q => q.1.name)).Nodup := by
      have hsub : ((fields.zip row).map (fun q => q.1.name)).Sublist
          (fields.map (·.name)) := by
        have := (zip_fst_sublist fields row).map (fun f : SpannerFieldInfo => f.name)
        simpa [Function.comp, List.map_map] using this
      exact hnd.sublist hsub
    obtain ⟨q, hq, hqeq, hqlen⟩ := mem_foldl_appendToColumn (fields.zip row)
      hzipnd data q₁ hq₁
    refine ⟨q, hq, hqeq.trans hq₁eq, ?_⟩
    have hb : q₁.2.length ≤ q.2.length + 1 := by
      refine hqlen.trans (Nat.add_le_add_left ?_ _)
      split <;> omega
    calc p.2.length ≤ q₁.2.length + rest.length := hq₁len
      _ ≤ (q.2.length + 1) + rest.length := Nat.add_le_add_right hb _
      _ = q.2.length + (row :: rest).length := by simp [List.length_cons]; omega

theorem mem_initData (fields : List SpannerFieldInfo) (p : String × List Json)
    (hp : p ∈ initData fields) : p.2 = [] := by
  unfold initData at hp
  obtain ⟨n, -, rfl⟩ := List.mem_map.mp hp
  rfl

/-- C9 counterexample: with a two-row fixture and row limit 1, the rows
field of the result still carries both fixture rows; the output is not
truncated to the limit. -/
theorem mock_execute_query_rows_untruncated :
    (MockSpannerDatabase.execute_query [⟨"c", "JSON"⟩]
        [[Json.num 1], [Json.num 2]] ⟨[]⟩ "any query" (some 1)).rows.length = 2 ∧
    ¬ ((MockSpannerDatabase.execute_query [⟨"c", "JSON"⟩]
        [[Json.num 1], [Json.num 2]] ⟨[]⟩ "any query" (some 1)).rows.length ≤ 1) := by
  constructor
  · rfl
  · intro h
    simp [MockSpannerDatabase.execute_query] at h

/-- C9 (amended): the mock execute ignores the query text entirely; with
pairwise distinct fixture column names, every per-column value sequence
in the returned data carries at most limit entries; the rows field
carries the full fixture row list, untruncated. -/
theorem mock_execute_query_shape (fixtureFields : List SpannerFieldInfo)
    (fixtureRows : List (List Json)) (fixtureSchema : Schema)
    (q₁ q₂ : String) (l : Nat)
    (hnd : (fixtureFields.map (·.name)).Nodup) :
    MockSpannerDatabase.execute_query fixtureFields fixtureRows fixtureSchema
        q₁ (some l) =
      MockSpannerDatabase.execute_query fixtureFields fixtureRows fixtureSchema
        q₂ (some l) ∧
    (∀ p ∈ (MockSpannerDatabase.execute_query fixtureFields fixtureRows
        fixtureSchema q₁ (some l)).data, p.2.length ≤ l) ∧
    (MockSpannerDatabase.execute_query fixtureFields fixtureRows fixtureSchema
        q₁ (some l)).rows = fixtureRows := by
  refine ⟨rfl, ?_, ?_⟩
  · intro p hp
    unfold MockSpannerDatabase.execute_query at hp
    by_cases hf : fixtureFields.length = 0
    · rw [if_pos hf] at hp
      simp only at hp
      rw [mem_initData fixtureFields p hp]
      simp
    · rw [if_neg hf] at hp
      simp only at hp
      obtain ⟨q, hq, -, hlen⟩ := mem_foldl_appendRow fixtureFields hnd _ _ p hp
      rw [mem_initData fixtureFields q hq] at hlen
      simp only [List.length_nil, Nat.zero_add] at hlen
      refine hlen.trans ?_
      unfold takeLimited
      simp
  · unfold MockSpannerDatabase.execute_query
    by_cases hf : fixtureFields.length = 0
    · rw [if_pos hf]
    · rw [if_neg hf]

/- ## Claim on node-expansion query synthesis -/

theorem str_append_empty (s : String) : s ++ "" = s := by
  simp

theorem joinSep_decompose (sep : String) :
    ∀ (xs : List String) (x : String), x ∈ xs →
      ∃ a b, joinSep sep xs = a ++ (x ++ b) := by
  intro xs
  induction xs with
  | nil => intro x h; simp at h
  | cons y ys ih =>
    intro x hx
    rcases List.mem_cons.mp hx with rfl | hx
    · cases ys with
      | nil =>
        refine ⟨"", "", ?_⟩
        show joinSep sep [x] = "" ++ (x ++ "")
        rw [joinSep]
        show x = "" ++ (x ++ "")
        rw [str_append_empty]
        rfl
      | cons z zs =>
        refine ⟨"", sep ++ joinSep sep (z :: zs), ?_⟩
        rw [joinSep]
        simp [String.append_assoc]
    · cases ys with
      | nil => simp at hx
      | cons z zs =>
        obtain ⟨a, b, hab⟩ := ih x hx
        refine ⟨y ++ sep ++ a, b, ?_⟩
        rw [joinSep, hab]
        simp [String.append_assoc]

theorem pathPattern_outgoing_none :
    pathPattern EdgeDirection.OUTGOING none = "(n)-[e]->(d)" := by decide

theorem pathPattern_incoming_none :
    pathPattern EdgeDirection.INCOMING none = "(n)<-[e]-(d)" := by decide

theorem propertyFragment_eq (p : NodePropertyForDataExploration) :
    propertyFragment p = "n." ++ pyStr p.key ++ "=" ++
      (if p.type_str ∈ NUMERIC_UNQUOTED_TYPES then pyStr p.value
       else tripleQuote ++ pyStr p.value ++ tripleQuote) := by
  unfold propertyFragment renderPropertyValue
  by_cases h : p.type_str ∈ NUMERIC_UNQUOTED_TYPES <;> simp [h, String.append_assoc]

/-- C5: for every node-expansion request that passes validation and
carries no edge-label filter, the synthesized query contains the
traversal fragment (n)-[e]->(d) for direction OUTGOING and (n)<-[e]-(d)
for INCOMING, and for every validated property constraint the matching
clause contains n.key=value with the value unquoted for the types INT64,
NUMERIC, FLOAT32, FLOAT64 and BOOL, and wrapped in a triple-quote string
literal for every other allowed type. -/
theorem execute_node_expansion_query_synthesis (data : ExpansionRequest)
    (props : List NodePropertyForDataExploration) (dir : EdgeDirection) (q : String)
    (hval : validate_node_expansion_request data = Except.ok (props, dir))
    (hedge : data.edge_label = none)
    (hq : execute_node_expansion_query data = Except.ok q) :
    (dir = EdgeDirection.OUTGOING → ∃ a b, q = a ++ ("(n)-[e]->(d)" ++ b)) ∧
    (dir = EdgeDirection.INCOMING → ∃ a b, q = a ++ ("(n)<-[e]-(d)" ++ b)) ∧
    (∀ p ∈ props, ∃ a b, q = a ++ (("n." ++ pyStr p.key ++ "=" ++
      (if p.type_str ∈ NUMERIC_UNQUOTED_TYPES then pyStr p.value
       else tripleQuote ++ pyStr p.value ++ tripleQuote)) ++ b)) := by
  unfold execute_node_expansion_query at hq
  rw [hval] at hq
  have hqeq : q = buildExpansionQuery (data.graph.getD "") (data.uid.getD "")
      (Json.strListD data.node_labels) props dir data.edge_label :=
    (Except.ok.inj hq).symm
  subst hqeq
  rw [hedge]
  refine ⟨?_, ?_, ?_⟩
  · rintro rfl
    refine ⟨"\n        GRAPH " ++ (data.graph.getD "") ++ "\n        LET uid = \"" ++
      (data.uid.getD "") ++ "\"" ++ "\n        MATCH (n" ++
      nodeLabelString (Json.strListD data.node_labels) ++ ")" ++
      "\n        WHERE " ++ joinSep " and " (props.map propertyFragment) ++ " " ++
      (if !(props.map propertyFragment).isEmpty then "and" else "") ++
      " STRING(TO_JSON(n).identifier) = uid" ++
      "\n        RETURN n\n\n        NEXT\n\n        MATCH ",
      "\n        RETURN TO_JSON(e) as e, TO_JSON(d) as d\n        ", ?_⟩
    unfold buildExpansionQuery
    rw [pathPattern_outgoing_none]
    simp [String.append_assoc]
  · rintro rfl
    refine ⟨"\n        GRAPH " ++ (data.graph.getD "") ++ "\n        LET uid = \"" ++
      (data.uid.getD "") ++ "\"" ++ "\n        MATCH (n" ++
      nodeLabelString (Json.strListD data.node_labels) ++ ")" ++
      "\n        WHERE " ++ joinSep " and " (props.map propertyFragment) ++ " " ++
      (if !(props.map propertyFragment).isEmpty then "and" else "") ++
      " STRING(TO_JSON(n).identifier) = uid" ++
      "\n        RETURN n\n\n        NEXT\n\n        MATCH ",
      "\n        RETURN TO_JSON(e) as e, TO_JSON(d) as d\n        ", ?_⟩
    unfold buildExpansionQuery
    rw [pathPattern_incoming_none]
    simp [String.append_assoc]
  · intro p hp
    obtain ⟨a₀, b₀, hj⟩ := joinSep_decompose " and " (props.map propertyFragment)
      (propertyFragment p) (List.mem_map_of_mem _ hp)
    refine ⟨"\n        GRAPH " ++ (data.graph.getD "") ++ "\n        LET uid = \"" ++
      (data.uid.getD "") ++ "\"" ++ "\n        MATCH (n" ++
      nodeLabelString (Json.strListD data.node_labels) ++ ")" ++
      "\n        WHERE " ++ a₀,
      b₀ ++ " " ++
      (if !(props.map propertyFragment).isEmpty then "and" else "") ++
      " STRING(TO_JSON(n).identifier) = uid" ++
      "\n        RETURN n\n\n        NEXT\n\n        MATCH " ++
      pathPattern dir none ++
      "\n        RETURN TO_JSON(e) as e, TO_JSON(d) as d\n        ", ?_⟩
    rw [← propertyFragment_eq]
    unfold buildExpansionQuery
    rw [hj]
    simp [String.append_assoc]

/- ## Witnesses -/

def wParse : String → Option Json := fun _ => none

def wFields : List SpannerFieldInfo := [⟨"c", "JSON"⟩]

def wEdgeJson : Json :=
  Json.obj [("kind", Json.str "edge"), ("identifier", Json.str "e1"),
    ("source_node_identifier", Json.str "n1"),
    ("destination_node_identifier", Json.str "m"),
    ("labels", Json.arr []), ("properties", Json.obj [])]

def wData2 : List (String × List Json) := [("c", [wEdgeJson])]

theorem get_nodes_edges_closure_witness :
    (∃ e ∈ (get_nodes_edges wParse wData2 wFields none).2,
        "m" = e.source ∨ "m" = e.destination) ∧
    "m" ∉ ((get_nodes_edges wParse wData2 wFields none).1.filter
        (fun n => !n.intermediate)).map (·.identifier) ∧
    (get_nodes_edges wParse wData2 wFields none).1.filter
        (fun n => n.identifier == "m") = [Node.make_intermediate "m"] := by
  have h₁ : ∃ e ∈ (get_nodes_edges wParse wData2 wFields none).2,
      "m" = e.source ∨ "m" = e.destination := by decide
  have h₂ : "m" ∉ ((get_nodes_edges wParse wData2 wFields none).1.filter
      (fun n => !n.intermediate)).map (·.identifier) := by decide
  exact ⟨h₁, h₂, (get_nodes_edges_closure wParse wData2 wFields none).2.1 "m" h₁ h₂⟩

theorem get_nodes_edges_dedup_first_witness :
    ((get_nodes_edges wParse wData2 wFields none).1.map (·.identifier)).Nodup ∧
    ((get_nodes_edges wParse wData2 wFields none).2.map (·.identifier)).Nodup ∧
    (∀ n ∈ (get_nodes_edges wParse wData2 wFields none).1, n.intermediate = false →
      ∃ it, (allItems wParse wData2 wFields).find? (fun x => isNodeItem x &&
          ((Node.from_json x).identifier == n.identifier)) = some it ∧
        n = buildNode (SchemaManager.ofSchema none) it) ∧
    (∀ e ∈ (get_nodes_edges wParse wData2 wFields none).2,
      ∃ it, (allItems wParse wData2 wFields).find? (fun x => isEdgeItem x &&
          ((Edge.from_json x).identifier == e.identifier)) = some it ∧
        e = Edge.from_json it) :=
  get_nodes_edges_dedup_first wParse wData2 wFields none

def wTables4 : List NodeTable :=
  [{ labelNames := ["Person", "Human"], keyColumns := ["id"],
     propertyDefinitions := [⟨"id", "id"⟩], dynamicLabelExpr := "" }]

def wSM4 : SchemaManager := SchemaManager.ofSchema (some ⟨wTables4⟩)

def wNode4 : Node := ⟨"1", ["Human", "Person"], [], [("id", Json.str "123")], false⟩

theorem get_key_property_names_resolves_witness :
    wSM4.dynamic_node = false ∧
    wSM4.get_key_property_names wNode4 = ["id"] ∧
    (wSM4.get_key_property_names wNode4 =
        resolveKeyPropertiesSpec wSM4.nodeTables wNode4 ∧
      (wNode4.properties = [] ∨ wNode4.labels = [] →
        wSM4.get_key_property_names wNode4 = []) ∧
      (∀ labels₂ : List String, List.Perm wNode4.labels labels₂ →
        wSM4.get_key_property_names { wNode4 with labels := labels₂ } =
          wSM4.get_key_property_names wNode4)) :=
  ⟨rfl, by decide, get_key_property_names_resolves wSM4 wNode4 rfl⟩

def wBackend : CloudBackend :=
  { schemaLookup := fun _ => Except.ok (some ⟨[]⟩)
    runQuery := fun _ => Except.error "query failed" }

theorem cloud_execute_query_captures_backend_error_witness :
    schemaPhase wBackend "GRAPH g MATCH x" false = Except.ok (some ⟨[]⟩) ∧
    ((∃ r, CloudSpannerDatabase.execute_query wBackend "GRAPH g MATCH x" false =
        Except.ok r) ∧
     (∀ e, wBackend.runQuery "GRAPH g MATCH x" = Except.error e →
        CloudSpannerDatabase.execute_query wBackend "GRAPH g MATCH x" false =
          Except.ok { data := [], fields := [], rows := [],
                      schema_json := some ⟨[]⟩, err := some e })) :=
  ⟨rfl, cloud_execute_query_captures_backend_error wBackend "GRAPH g MATCH x"
    false (some ⟨[]⟩) rfl⟩

theorem instance_cache_lookup_behavior_witness :
    ((get_database_instance "p" "i" "d" false
        (get_database_instance "p" "i" "d" false emptyExecEnv).2).1 =
      (get_database_instance "p" "i" "d" false emptyExecEnv).1 ∧
     (get_database_instance "p" "i" "d" false
        (get_database_instance "p" "i" "d" false emptyExecEnv).2).2 =
      (get_database_instance "p" "i" "d" false emptyExecEnv).2) ∧
    (∀ (m : Bool) kv, kv ∈ emptyExecEnv.database_instances →
      kv ∈ (get_database_instance "p" "i" "d" m emptyExecEnv).2.database_instances) ∧
    ((get_database_instance "p" "i" "d" true emptyExecEnv).2.database_instances =
        emptyExecEnv.database_instances ∧
     (get_database_instance "p" "i" "d" true emptyExecEnv).1.isMock = true ∧
     (∀ kv ∈ emptyExecEnv.database_instances,
        kv.2.objectId < emptyExecEnv.nextObjectId →
        kv.2 ≠ (get_database_instance "p" "i" "d" true emptyExecEnv).1)) ∧
    (∀ p₂ i₂ d₂ : String, cacheKey "p" "i" "d" ≠ cacheKey p₂ i₂ d₂ →
      (get_database_instance p₂ i₂ d₂ false
          (get_database_instance "p" "i" "d" false emptyExecEnv).2).1 ≠
        (get_database_instance "p" "i" "d" false emptyExecEnv).1) :=
  instance_cache_lookup_behavior "p" "i" "d" emptyExecEnv

def wMockFields : List SpannerFieldInfo := [⟨"a", "JSON"⟩, ⟨"b", "JSON"⟩]

def wMockRows : List (List Json) :=
  [[Json.num 1, Json.num 2], [Json.num 3, Json.num 4], [Json.num 5, Json.num 6]]

theorem mock_execute_query_shape_witness :
    (wMockFields.map (·.name)).Nodup ∧
    (MockSpannerDatabase.execute_query wMockFields wMockRows ⟨[]⟩ "q1" (some 2) =
      MockSpannerDatabase.execute_query wMockFields wMockRows ⟨[]⟩ "q2" (some 2) ∧
    (∀ p ∈ (MockSpannerDatabase.execute_query wMockFields wMockRows ⟨[]⟩ "q1"
        (some 2)).data, p.2.length ≤ 2) ∧
    (MockSpannerDatabase.execute_query wMockFields wMockRows ⟨[]⟩ "q1"
        (some 2)).rows = wMockRows) :=
  ⟨by decide, mock_execute_query_shape wMockFields wMockRows ⟨[]⟩ "q1" "q2" 2
    (by decide)⟩

def wNodeJson7 : Json := mkNodeJson "n1" [Json.str "Person"] []

theorem node_shape_validation_witness :
    (Node.is_valid_node_json wNodeJson7 = true ↔ NodeShapeSpec wNodeJson7) ∧
    (∀ (sm : SchemaManager) (st : ConvState),
      kindIs wNodeJson7 "node" = true → Node.is_valid_node_json wNodeJson7 = false →
      processItem sm st wNodeJson7 = st) :=
  node_shape_validation wNodeJson7

theorem empty_labels_node_accepted_witness :
    Node.is_valid_node_json (mkNodeJson "n1" [] [("p", Json.num 1)]) = true ∧
    (∀ sm : SchemaManager,
      sm.get_key_property_names
        (Node.from_json (mkNodeJson "n1" [] [("p", Json.num 1)])) = []) ∧
    get_nodes_edges wParse [("c", [mkNodeJson "n1" [] [("p", Json.num 1)]])]
        [⟨"c", "JSON"⟩] none =
      ([{ identifier := "n1", labels := [], key_property_names := [],
          properties := [("p", Json.num 1)], intermediate := false }], []) :=
  empty_labels_node_accepted "n1" [("p", Json.num 1)] none wParse

def wReq : ExpansionRequest :=
  { project := some "p", instanceId := some "i", database := some "d",
    graph := some "g", uid := some "node-123",
    node_labels := some (Json.arr [Json.str "Person"]),
    node_properties := some (Json.arr [Json.obj [("key", Json.str "id"),
      ("value", Json.str "123"), ("type", Json.str "INT64")]]),
    direction := some "OUTGOING", edge_label := none }

def wProps5 : List NodePropertyForDataExploration :=
  [⟨Json.str "id", Json.str "123", "INT64"⟩]

def wQuery5 : String :=
  buildExpansionQuery "g" "node-123" ["Person"] wProps5 EdgeDirection.OUTGOING none

theorem execute_node_expansion_query_synthesis_witness :
    validate_node_expansion_request wReq =
      Except.ok (wProps5, EdgeDirection.OUTGOING) ∧
    wReq.edge_label = none ∧
    execute_node_expansion_query wReq = Except.ok wQuery5 ∧
    ((EdgeDirection.OUTGOING = EdgeDirection.OUTGOING →
        ∃ a b, wQuery5 = a ++ ("(n)-[e]->(d)" ++ b)) ∧
     (EdgeDirection.OUTGOING = EdgeDirection.INCOMING →
        ∃ a b, wQuery5 = a ++ ("(n)<-[e]-(d)" ++ b)) ∧
     (∀ p ∈ wProps5, ∃ a b, wQuery5 = a ++ (("n." ++ pyStr p.key ++ "=" ++
       (if p.type_str ∈ NUMERIC_UNQUOTED_TYPES then pyStr p.value
        else tripleQuote ++ pyStr p.value ++ tripleQuote)) ++ b))) :=
  ⟨rfl, rfl, rfl, execute_node_expansion_query_synthesis wReq wProps5
    EdgeDirection.OUTGOING wQuery5 rfl rfl rfl⟩
